import Mathlib

/-!
Shallow embedding of the DockerKube user-directory service
(`backend/app/models.py`, `backend/app/schemas.py`, `backend/app/crud.py`,
`backend/app/main.py`) and proofs about its validation, uniqueness and
mutation-consistency logic.

Conventions of the embedding:
* machine timestamps are modelled as `Nat` (an abstract clock value `now`
  is passed to each mutating operation, standing for `func.now()`);
* the SQLAlchemy store is a `DB` value: a list of rows plus the
  autoincrement counter; `db.commit()` on an insert/update is an
  authoritative atomic step that enforces the table's UNIQUE and NOT NULL
  constraints and reports `IntegrityError` as `Except.error ()`;
* pydantic models become structures; for `UserUpdate`, whose handler
  distinguishes "field omitted" from "field set to null"
  (`model_dump(exclude_unset=True)`), each field is an
  `Option (Option _)`: `none` = omitted, `some none` = explicit null,
  `some (some v)` = explicit value;
* `HTTPException` becomes `ApiError` (status code plus detail string) and
  each FastAPI handler becomes a total function into `Except ApiError _`.
-/

/-- A row of the `users` table (`models.py`, class `User`).
`full_name` is nullable; `updated_at` is null until the first update. -/
structure User where
  id : Nat
  email : String
  username : String
  full_name : Option String
  is_active : Bool
  created_at : Nat
  updated_at : Option Nat
deriving DecidableEq

/-- The persistent store: the `users` table in insertion order plus the
autoincrement counter for the next primary key. -/
structure DB where
  users : List User
  nextId : Nat
deriving DecidableEq

/-- Store well-formedness: primary keys, emails and usernames are unique
(the table's PRIMARY KEY and UNIQUE indexes), ids are positive, and the
autoincrement counter is ahead of every existing id. -/
def DBWf (db : DB) : Prop :=
  (db.users.map (fun u => u.id)).Nodup ∧
  (db.users.map (fun u => u.email)).Nodup ∧
  (db.users.map (fun u => u.username)).Nodup ∧
  (∀ u ∈ db.users, 1 ≤ u.id ∧ u.id < db.nextId) ∧
  1 ≤ db.nextId

instance (db : DB) : Decidable (DBWf db) := by
  unfold DBWf; infer_instance

/-- Payload accepted by POST /users after pydantic validation
(`schemas.py`, `UserCreate`): `email` and `username` are required,
`full_name` optional, `is_active` defaulted to `true` when omitted. -/
structure UserCreate where
  email : String
  username : String
  full_name : Option String
  is_active : Bool
deriving DecidableEq

/-- Payload accepted by PUT /users/{id} after pydantic validation
(`schemas.py`, `UserUpdate`): every field optional.  The outer `Option`
records whether the field was present in the request body at all
(pydantic's `exclude_unset`), the inner one whether it was null. -/
structure UserUpdate where
  email : Option (Option String)
  username : Option (Option String)
  full_name : Option (Option String)
  is_active : Option (Option Bool)
deriving DecidableEq

/-- An `HTTPException`: status code and detail message. -/
structure ApiError where
  status_code : Nat
  detail : String
deriving DecidableEq

/-! ### Error messages (string literals from `main.py`) -/

def emailConflictMsg (e : String) : String :=
  "Email \x27" ++ e ++ "\x27 already registered"

def usernameConflictMsg (u : String) : String :=
  "Username \x27" ++ u ++ "\x27 already taken"

/-- Commit-time duplicate message of the create handler. -/
def createCommitConflictMsg : String :=
  "User with this email or username already exists"

/-- Commit-time duplicate message of the update handler. -/
def updateCommitConflictMsg : String :=
  "Email or username already exists"

def notFoundMsg (user_id : Int) : String :=
  "User with ID " ++ toString user_id ++ " not found"

def invalidIdMsg : String := "User ID must be a positive integer"

def emptyBodyMsg : String := "At least one field must be provided for update"

def invalidSkipMsg : String := "Parameter \x27skip\x27 must be >= 0"

def invalidLimitMsg : String := "Parameter \x27limit\x27 must be between 1 and 1000"

/-! ### CRUD layer (`crud.py`) -/

/-- `crud.get_user`: first row whose id matches. -/
def get_user (db : DB) (user_id : Nat) : Option User :=
  db.users.find? (fun u => u.id == user_id)

/-- `crud.get_user_by_email`: first row whose email matches. -/
def get_user_by_email (db : DB) (email : String) : Option User :=
  db.users.find? (fun u => u.email == email)

/-- `crud.get_user_by_username`: first row whose username matches. -/
def get_user_by_username (db : DB) (username : String) : Option User :=
  db.users.find? (fun u => u.username == username)

/-- `crud.get_users`: OFFSET `skip` LIMIT `limit` over the table in
insertion order.  The handler validates `skip ≥ 0` and `limit ≥ 1` before
calling this. -/
def get_users (db : DB) (skip limit : Int) : List User :=
  (db.users.drop skip.toNat).take limit.toNat

/-- `crud.create_user`: build the row and commit.  The commit is the
store's authoritative uniqueness arbiter: it raises `IntegrityError`
(modelled as `.error ()`) when a row with the same email or username
already exists, otherwise appends the row and advances the counter. -/
def create_user (db : DB) (now : Nat) (p : UserCreate) :
    Except Unit (User × DB) :=
  if db.users.any (fun v => v.email == p.email || v.username == p.username) then
    .error ()
  else
    .ok (⟨db.nextId, p.email, p.username, p.full_name, p.is_active, now, none⟩,
      ⟨db.users ++ [⟨db.nextId, p.email, p.username, p.full_name, p.is_active, now, none⟩],
       db.nextId + 1⟩)

/-- Value the row's `email` column would take after applying `upd`
(`setattr` for each key of `model_dump(exclude_unset=True)`): an omitted
field keeps the current value, a present field overwrites it (possibly
with null). -/
def newEmailOf (u : User) (upd : UserUpdate) : Option String :=
  match upd.email with
  | none => some u.email
  | some v => v

/-- Value the `username` column would take after applying `upd`. -/
def newUsernameOf (u : User) (upd : UserUpdate) : Option String :=
  match upd.username with
  | none => some u.username
  | some v => v

/-- Value the `full_name` column would take after applying `upd`. -/
def newFullNameOf (u : User) (upd : UserUpdate) : Option String :=
  match upd.full_name with
  | none => u.full_name
  | some v => v

/-- Value the `is_active` column would take after applying `upd`. -/
def newActiveOf (u : User) (upd : UserUpdate) : Option Bool :=
  match upd.is_active with
  | none => some u.is_active
  | some v => v

/-- `crud.update_user`: look the row up (returning `none` when absent,
without an exception), apply exactly the fields present in the payload,
and commit.  The commit enforces NOT NULL on `email`/`username`/`is_active`
and the UNIQUE indexes against every other row, raising `IntegrityError`
(`.error ()`) on violation and leaving the store unchanged (the handler
rolls back).  On success `updated_at` is stamped to `now`. -/
def update_user (db : DB) (now : Nat) (user_id : Nat) (upd : UserUpdate) :
    Except Unit (Option (User × DB)) :=
  match get_user db user_id with
  | none => .ok none
  | some u =>
    match newEmailOf u upd, newUsernameOf u upd, newActiveOf u upd with
    | some e, some un, some b =>
      if db.users.any (fun v => v.id != u.id && (v.email == e || v.username == un)) then
        .error ()
      else
        let u' : User := ⟨u.id, e, un, newFullNameOf u upd, b, u.created_at, some now⟩
        .ok (some (u', ⟨db.users.map (fun v => if v.id == u.id then u' else v), db.nextId⟩))
    | _, _, _ => .error ()

/-- `crud.delete_user`: look the row up; `false` when absent, otherwise
remove it and report `true`. -/
def delete_user (db : DB) (user_id : Nat) : Bool × DB :=
  match get_user db user_id with
  | none => (false, db)
  | some _ => (true, ⟨db.users.filter (fun v => v.id != user_id), db.nextId⟩)

/-! ### Validation layer (`schemas.py`) -/

/-- Split a character list at every occurrence of `c` (the resulting
pieces do not contain `c`; `n` occurrences yield `n + 1` pieces). -/
def splitOnChar (c : Char) : List Char → List (List Char)
  | [] => [[]]
  | x :: t =>
    if x == c then
      [] :: splitOnChar c t
    else
      match splitOnChar c t with
      | [] => [[x]]
      | h :: t2 => (x :: h) :: t2

/-- Modelled from the spec: pydantic's `EmailStr` shape check ("must
conform to email syntax"); the third-party grammar is not part of the
repository, so a simplified executable shape is used: exactly one `@`,
non-empty local part, and a domain of at least two non-empty
dot-separated labels. -/
def isValidEmail (s : String) : Bool :=
  match splitOnChar '@' s.data with
  | [lpart, dpart] =>
    !lpart.isEmpty && decide (2 ≤ (splitOnChar '.' dpart).length) &&
      (splitOnChar '.' dpart).all (fun t => !t.isEmpty)
  | _ => false

/-- Raw create body before pydantic validation: each field may be absent. -/
structure UserCreateInput where
  email : Option String
  username : Option String
  full_name : Option String
  is_active : Option Bool
deriving DecidableEq

/-- Pydantic validation of a create body (`UserBase`/`UserCreate`):
`email` required and well-shaped, `username` required with length in
[3,50], `full_name` at most 100 when present, `is_active` defaulted to
`true` when omitted.  Returns the validated payload or `none` (a 422). -/
def validateUserCreate (i : UserCreateInput) : Option UserCreate :=
  match i.email, i.username with
  | some e, some un =>
    if isValidEmail e && decide (3 ≤ un.length) && decide (un.length ≤ 50) &&
        (match i.full_name with
         | some f => decide (f.length ≤ 100)
         | none => true) then
      some ⟨e, un, i.full_name, i.is_active.getD true⟩
    else none
  | _, _ => none

/-- Pydantic validation of an update body (`UserUpdate`): any field may be
omitted or explicitly null; a supplied value must satisfy the same
per-field constraints as at creation. -/
def validUserUpdate (upd : UserUpdate) : Bool :=
  (match upd.email with
   | some (some e) => isValidEmail e
   | _ => true) &&
  (match upd.username with
   | some (some un) => decide (3 ≤ un.length) && decide (un.length ≤ 50)
   | _ => true) &&
  (match upd.full_name with
   | some (some f) => decide (f.length ≤ 100)
   | _ => true)

/-! ### API layer (`main.py`) -/

/-- Truthiness of a string-valued pydantic attribute as tested by
`if user.email:` — false when the field is unset, explicitly null, or the
empty string. -/
def strFieldTruthy : Option (Option String) → Bool
  | some (some s) => s != ""
  | _ => false

/-- `model_dump(exclude_unset=True)` is non-empty: at least one field was
present in the request body. -/
def hasFieldsSet (upd : UserUpdate) : Bool :=
  upd.email.isSome || upd.username.isSome || upd.full_name.isSome ||
    upd.is_active.isSome

/-- Email uniqueness pre-check of the update handler: only performed when
the supplied email is truthy; a conflict is a row holding that email whose
id differs from the target's.  Returns the offending email. -/
def emailPrecheck (db : DB) (user_id : Int) (upd : UserUpdate) : Option String :=
  match upd.email with
  | some (some e) =>
    if e != "" then
      match get_user_by_email db e with
      | some existing => if (existing.id : Int) != user_id then some e else none
      | none => none
    else none
  | _ => none

/-- Username uniqueness pre-check of the update handler, symmetric to
`emailPrecheck`. -/
def usernamePrecheck (db : DB) (user_id : Int) (upd : UserUpdate) : Option String :=
  match upd.username with
  | some (some un) =>
    if un != "" then
      match get_user_by_username db un with
      | some existing => if (existing.id : Int) != user_id then some un else none
      | none => none
    else none
  | _ => none

/-- `main.create_user`, with the three store interactions exposed to
independent snapshots so that the race the handler defends against is
expressible: the email pre-check reads `db1`, the username pre-check reads
`db2`, and the authoritative insert commits against `db3`.  The sequential
handler is the diagonal `db1 = db2 = db3`. -/
def api_create_user_race (now : Nat) (p : UserCreate) (db1 db2 db3 : DB) :
    Except ApiError (User × DB) :=
  match get_user_by_email db1 p.email with
  | some _ => .error ⟨400, emailConflictMsg p.email⟩
  | none =>
    match get_user_by_username db2 p.username with
    | some _ => .error ⟨400, usernameConflictMsg p.username⟩
    | none =>
      match create_user db3 now p with
      | .ok r => .ok r
      | .error _ => .error ⟨400, createCommitConflictMsg⟩

/-- `main.create_user` against a single store state. -/
def api_create_user (db : DB) (now : Nat) (p : UserCreate) :
    Except ApiError (User × DB) :=
  api_create_user_race now p db db db

/-- `main.read_users` (GET /users): validate pagination, then list. -/
def api_read_users (db : DB) (skip limit : Int) :
    Except ApiError (List User) :=
  if skip < 0 then
    .error ⟨400, invalidSkipMsg⟩
  else if limit < 1 ∨ 1000 < limit then
    .error ⟨400, invalidLimitMsg⟩
  else
    .ok (get_users db skip limit)

/-- `main.read_user` (GET /users/{id}). -/
def api_read_user (db : DB) (user_id : Int) : Except ApiError User :=
  if user_id < 1 then
    .error ⟨400, invalidIdMsg⟩
  else
    match get_user db user_id.toNat with
    | none => .error ⟨404, notFoundMsg user_id⟩
    | some u => .ok u

/-- `main.update_user` (PUT /users/{id}): id check, non-empty-body check,
email and username pre-checks, then the crud update; an `IntegrityError`
at commit is rolled back and mapped to the generic duplicate message. -/
def api_update_user (db : DB) (now : Nat) (user_id : Int) (upd : UserUpdate) :
    Except ApiError (User × DB) :=
  if user_id < 1 then
    .error ⟨400, invalidIdMsg⟩
  else if !hasFieldsSet upd then
    .error ⟨400, emptyBodyMsg⟩
  else
    match emailPrecheck db user_id upd with
    | some e => .error ⟨400, emailConflictMsg e⟩
    | none =>
      match usernamePrecheck db user_id upd with
      | some un => .error ⟨400, usernameConflictMsg un⟩
      | none =>
        match update_user db now user_id.toNat upd with
        | .ok none => .error ⟨404, notFoundMsg user_id⟩
        | .ok (some r) => .ok r
        | .error _ => .error ⟨400, updateCommitConflictMsg⟩

/-- `main.delete_user` (DELETE /users/{id}): 204 (no payload beyond the
new store state) on success, 404 when the row is absent. -/
def api_delete_user (db : DB) (user_id : Int) : Except ApiError DB :=
  if user_id < 1 then
    .error ⟨400, invalidIdMsg⟩
  else
    match delete_user db user_id.toNat with
    | (true, db') => .ok db'
    | (false, _) => .error ⟨404, notFoundMsg user_id⟩

instance {ε α : Type} [DecidableEq ε] [DecidableEq α] : DecidableEq (Except ε α)
  | .error a, .error b =>
    if h : a = b then .isTrue (congrArg Except.error h)
    else .isFalse (fun c => h (by injection c))
  | .error _, .ok _ => .isFalse (fun c => Except.noConfusion c)
  | .ok _, .error _ => .isFalse (fun c => Except.noConfusion c)
  | .ok a, .ok b =>
    if h : a = b then .isTrue (congrArg Except.ok h)
    else .isFalse (fun c => h (by injection c))

/-! ### Substring occurrence (for "the message names the offending
field or id") -/

/-- `hasPre xs l`: `xs` occurs at the start of `l`. -/
def hasPre : List Char → List Char → Bool
  | [], _ => true
  | _ :: _, [] => false
  | a :: as, b :: bs => a == b && hasPre as bs

/-- `hasSub xs l`: `xs` occurs contiguously somewhere in `l`. -/
def hasSub : List Char → List Char → Bool
  | xs, [] => hasPre xs []
  | xs, c :: t => hasPre xs (c :: t) || hasSub xs t

/-- The string `s` contains `sub` as a contiguous substring. -/
def strHas (s sub : String) : Bool := hasSub sub.data s.data

/-! ### Interleaving machine for concurrent creates/updates
(`main.create_user` / `main.update_user` racing on a shared store).

Each inbound operation is a small process whose store interactions are the
handler's store round-trips, executed one at a time against the shared
store under an arbitrary schedule: `s0` is the email uniqueness pre-check,
`s1` the username pre-check, `s2` the commit (the store's atomic,
authoritative constraint enforcement: `crud.create_user`'s insert or
`crud.update_user`'s lookup-apply-commit).  A failed commit rolls back and
leaves the store unchanged; pre-check conflicts abort before commit.  The
pure request-validation steps of the handlers (id positivity, non-empty
body) touch no shared state and are elided. -/

inductive RaceOp where
  | create (p : UserCreate)
  | update (uid : Nat) (upd : UserUpdate)
deriving DecidableEq

/-- Program counter / terminal status of one racing process. -/
inductive PSt where
  | s0 | s1 | s2 | ok | conflict | notfound
deriving DecidableEq

/-- One store round-trip of one process, against store `db`. -/
def stepOp (now : Nat) (db : DB) (op : RaceOp) : PSt → PSt × DB
  | .s0 =>
    match op with
    | .create p =>
      match get_user_by_email db p.email with
      | some _ => (.conflict, db)
      | none => (.s1, db)
    | .update uid upd =>
      match emailPrecheck db (uid : Int) upd with
      | some _ => (.conflict, db)
      | none => (.s1, db)
  | .s1 =>
    match op with
    | .create p =>
      match get_user_by_username db p.username with
      | some _ => (.conflict, db)
      | none => (.s2, db)
    | .update uid upd =>
      match usernamePrecheck db (uid : Int) upd with
      | some _ => (.conflict, db)
      | none => (.s2, db)
  | .s2 =>
    match op with
    | .create p =>
      match create_user db now p with
      | .ok (_, db') => (.ok, db')
      | .error _ => (.conflict, db)
    | .update uid upd =>
      match update_user db now uid upd with
      | .ok (some (_, db')) => (.ok, db')
      | .ok none => (.notfound, db)
      | .error _ => (.conflict, db)
  | .ok => (.ok, db)
  | .conflict => (.conflict, db)
  | .notfound => (.notfound, db)

/-- Global configuration: the shared store plus each process's state
(`ps` is positionally aligned with the list of operations). -/
structure Conf where
  db : DB
  ps : List PSt
deriving DecidableEq

/-- Advance process `i` by one store round-trip. -/
def runStep (now : Nat) (ops : List RaceOp) (c : Conf) (i : Nat) : Conf :=
  match ops[i]?, c.ps[i]? with
  | some op, some st =>
    let r := stepOp now c.db op st
    ⟨r.2, c.ps.set i r.1⟩
  | _, _ => c

/-- Run a schedule (an arbitrary interleaving of process indices). -/
def runRace (now : Nat) (ops : List RaceOp) : List Nat → Conf → Conf
  | [], c => c
  | i :: sched, c => runRace now ops sched (runStep now ops c i)

/-- Initial configuration: every process at its first store round-trip. -/
def initConf (db : DB) (ops : List RaceOp) : Conf :=
  ⟨db, List.replicate ops.length .s0⟩

/-- The id an update operation targets (`none` for a create). -/
def targetOf : RaceOp → Option Nat
  | .create _ => none
  | .update uid _ => some uid

/-- The operation races for email `e` over store `db0` and is otherwise
unobstructed: a create carries email `e` and a username no existing row
holds; an update sets exactly `email := e` (no username change, no
explicit null `is_active`) on a target row that exists. -/
def raceOpOk (e : String) (db0 : DB) : RaceOp → Bool
  | .create p => p.email == e && db0.users.all (fun v => v.username != p.username)
  | .update uid upd =>
    upd.email == some (some e) && upd.username == none &&
      upd.is_active != some none && db0.users.any (fun v => v.id == uid)

/-- The process has reached a terminal status. -/
def finished : PSt → Bool
  | .ok => true
  | .conflict => true
  | .notfound => true
  | _ => false

/-! ### Sample store states (used by witnesses) -/

def sampleU1 : User := ⟨1, "a@x.com", "alice", none, true, 0, none⟩

def sampleU2 : User := ⟨2, "b@x.com", "bob", some "Bob B", true, 0, none⟩

def sampleDB : DB := ⟨[sampleU1, sampleU2], 3⟩

def sampleU3 : User := ⟨3, "c@x.com", "carol", none, true, 7, none⟩

def sampleDB3 : DB := ⟨[sampleU1, sampleU2, sampleU3], 4⟩

def sampleInput : UserCreateInput := ⟨some "c@x.com", some "carol", none, none⟩

def sampleP : UserCreate := ⟨"c@x.com", "carol", none, true⟩

/-! ### Invariant vocabulary for the interleaving machine -/

/-- The process has not finished (still has store round-trips to make). -/
def unfinishedSt (st : PSt) : Prop := st = .s0 ∨ st = .s1 ∨ st = .s2

/-- The process is either still running or has observed a conflict —
anything except a success or a not-found. -/
def loserSt (st : PSt) : Prop :=
  st = .s0 ∨ st = .s1 ∨ st = .s2 ∨ st = .conflict

/-- Machine invariant: either no commit has happened yet (store untouched,
every process unfinished), or exactly one process `j` has committed
successfully, the store is the one produced by `j`'s commit against the
initial store, and every other process is running or conflicted. -/
def RaceInv (now : Nat) (db0 : DB) (ops : List RaceOp) (c : Conf) : Prop :=
  c.ps.length = ops.length ∧
  ((c.db = db0 ∧ ∀ st ∈ c.ps, unfinishedSt st) ∨
   (∃ (j : Nat) (op : RaceOp), ops[j]? = some op ∧ c.ps[j]? = some PSt.ok ∧
     stepOp now db0 op PSt.s2 = (PSt.ok, c.db) ∧
     ∀ i, i ≠ j → ∀ st, c.ps[i]? = some st → loserSt st))

/-- Fixtures for the same-target counterexample: two concurrent updates
of the same record both retargeting the same fresh email. -/
def cexUpd : UserUpdate := ⟨some (some "z@x.com"), none, none, none⟩

def cexOps : List RaceOp := [RaceOp.update 1 cexUpd, RaceOp.update 1 cexUpd]

def cexRun : Conf := runRace 5 cexOps [0, 0, 0, 1, 1, 1] (initConf sampleDB cexOps)

/-- Fixtures for the C9 witness: one create and one update of a distinct
record, racing for the same fresh email. -/
def wraceOps : List RaceOp :=
  [RaceOp.create ⟨"z@x.com", "newname", none, true⟩, RaceOp.update 1 cexUpd]

/-- The operation races for username `n` over store `db0` and is
otherwise unobstructed: a create carries username `n` and an email no
existing row holds; an update sets exactly `username := n` (no email
change, no explicit null `is_active`) on a target row that exists. -/
def raceOpOkU (n : String) (db0 : DB) : RaceOp → Bool
  | .create p => p.username == n && db0.users.all (fun v => v.email != p.email)
  | .update uid upd =>
    upd.username == some (some n) && upd.email == none &&
      upd.is_active != some none && db0.users.any (fun v => v.id == uid)

/-- Fixtures for the username half of the C9 witness: a create and an
update of a distinct record racing for the same fresh username. -/
def wraceOpsU : List RaceOp :=
  [RaceOp.create ⟨"w@x.com", "shared", none, true⟩,
   RaceOp.update 1 ⟨none, some (some "shared"), none, none⟩]

/-! ## Helper lemmas -/

theorem strData_append (s t : String) : (s ++ t).data = s.data ++ t.data := rfl

theorem str_eq_of_data {s t : String} (h : s.data = t.data) : s = t :=
  congrArg String.mk h

theorem str_ne_of_get (i : Nat) (c d : Char) {s t : String}
    (hs : s.data[i]? = some c) (ht : t.data[i]? = some d) (hcd : c ≠ d) :
    s ≠ t := by
  intro h
  rw [h, ht] at hs
  exact hcd (Option.some.inj hs).symm

theorem getElemPre {pre rest : List Char} {i : Nat} (h : i < pre.length) :
    (pre ++ rest)[i]? = pre[i]? := by
  rw [List.getElem?_append]
  exact if_pos h

theorem emailConflictMsg_data (v : String) :
    (emailConflictMsg v).data =
      "Email \x27".data ++ (v.data ++ "\x27 already registered".data) := by
  unfold emailConflictMsg
  rw [strData_append, strData_append, List.append_assoc]

theorem usernameConflictMsg_data (v : String) :
    (usernameConflictMsg v).data =
      "Username \x27".data ++ (v.data ++ "\x27 already taken".data) := by
  unfold usernameConflictMsg
  rw [strData_append, strData_append, List.append_assoc]

theorem notFoundMsg_data (n : Int) :
    (notFoundMsg n).data =
      "User with ID ".data ++ ((toString n).data ++ " not found".data) := by
  unfold notFoundMsg
  rw [strData_append, strData_append, List.append_assoc]

theorem emailConflictMsg_ne_invalidId (v : String) :
    emailConflictMsg v ≠ invalidIdMsg := by
  apply str_ne_of_get 0 'E' 'U'
  · rw [emailConflictMsg_data, getElemPre (by decide)]
    decide
  · decide
  · decide

theorem emailConflictMsg_ne_emptyBody (v : String) :
    emailConflictMsg v ≠ emptyBodyMsg := by
  apply str_ne_of_get 0 'E' 'A'
  · rw [emailConflictMsg_data, getElemPre (by decide)]
    decide
  · decide
  · decide

theorem emailConflictMsg_ne_updateCommit (v : String) :
    emailConflictMsg v ≠ updateCommitConflictMsg := by
  apply str_ne_of_get 6 '\x27' 'o'
  · rw [emailConflictMsg_data, getElemPre (by decide)]
    decide
  · decide
  · decide

theorem emailConflictMsg_ne_notFound (v : String) (n : Int) :
    emailConflictMsg v ≠ notFoundMsg n := by
  apply str_ne_of_get 0 'E' 'U'
  · rw [emailConflictMsg_data, getElemPre (by decide)]
    decide
  · rw [notFoundMsg_data, getElemPre (by decide)]
    decide
  · decide

theorem usernameConflictMsg_ne_invalidId (v : String) :
    usernameConflictMsg v ≠ invalidIdMsg := by
  apply str_ne_of_get 4 'n' ' '
  · rw [usernameConflictMsg_data, getElemPre (by decide)]
    decide
  · decide
  · decide

theorem usernameConflictMsg_ne_emptyBody (v : String) :
    usernameConflictMsg v ≠ emptyBodyMsg := by
  apply str_ne_of_get 0 'U' 'A'
  · rw [usernameConflictMsg_data, getElemPre (by decide)]
    decide
  · decide
  · decide

theorem usernameConflictMsg_ne_updateCommit (v : String) :
    usernameConflictMsg v ≠ updateCommitConflictMsg := by
  apply str_ne_of_get 0 'U' 'E'
  · rw [usernameConflictMsg_data, getElemPre (by decide)]
    decide
  · decide
  · decide

theorem usernameConflictMsg_ne_emailConflict (v w : String) :
    usernameConflictMsg v ≠ emailConflictMsg w := by
  apply str_ne_of_get 0 'U' 'E'
  · rw [usernameConflictMsg_data, getElemPre (by decide)]
    decide
  · rw [emailConflictMsg_data, getElemPre (by decide)]
    decide
  · decide

theorem usernameConflictMsg_ne_notFound (v : String) (n : Int) :
    usernameConflictMsg v ≠ notFoundMsg n := by
  apply str_ne_of_get 4 'n' ' '
  · rw [usernameConflictMsg_data, getElemPre (by decide)]
    decide
  · rw [notFoundMsg_data, getElemPre (by decide)]
    decide
  · decide

theorem notFoundMsg_ne_emptyBody (n : Int) :
    notFoundMsg n ≠ emptyBodyMsg := by
  apply str_ne_of_get 0 'U' 'A'
  · rw [notFoundMsg_data, getElemPre (by decide)]
    decide
  · decide
  · decide

theorem emailConflictMsg_inj {v w : String}
    (h : emailConflictMsg v = emailConflictMsg w) : v = w := by
  have h2 := congrArg String.data h
  rw [emailConflictMsg_data, emailConflictMsg_data] at h2
  exact str_eq_of_data
    (List.append_cancel_right (List.append_cancel_left h2))

theorem usernameConflictMsg_inj {v w : String}
    (h : usernameConflictMsg v = usernameConflictMsg w) : v = w := by
  have h2 := congrArg String.data h
  rw [usernameConflictMsg_data, usernameConflictMsg_data] at h2
  exact str_eq_of_data
    (List.append_cancel_right (List.append_cancel_left h2))

theorem hasPre_append (xs ys : List Char) : hasPre xs (xs ++ ys) = true := by
  induction xs with
  | nil => rfl
  | cons a as ih => simp [hasPre, ih]

theorem hasSub_here (xs ys : List Char) : hasSub xs (xs ++ ys) = true := by
  cases h : xs ++ ys with
  | nil =>
    rcases List.append_eq_nil.1 h with ⟨h1, h2⟩
    subst h1; subst h2
    rfl
  | cons c t =>
    simp only [hasSub, Bool.or_eq_true]
    left
    rw [← h]
    exact hasPre_append xs ys

theorem hasSub_cons (xs : List Char) (c : Char) (t : List Char)
    (h : hasSub xs t = true) : hasSub xs (c :: t) = true := by
  simp only [hasSub, Bool.or_eq_true]
  right
  exact h

theorem hasSub_append_left (pre xs l : List Char)
    (h : hasSub xs l = true) : hasSub xs (pre ++ l) = true := by
  induction pre with
  | nil => simpa using h
  | cons c cs ih => simpa [List.cons_append] using hasSub_cons xs c (cs ++ l) ih

theorem strHas_append (a v b : String) : strHas (a ++ v ++ b) v = true := by
  unfold strHas
  rw [strData_append, strData_append, List.append_assoc]
  exact hasSub_append_left a.data v.data _ (hasSub_here v.data b.data)

theorem get_user_eq_none {db : DB} {i : Nat} :
    get_user db i = none ↔ ∀ u ∈ db.users, u.id ≠ i := by
  unfold get_user
  rw [List.find?_eq_none]
  simp

theorem get_user_some {db : DB} {i : Nat} {u : User}
    (h : get_user db i = some u) : u ∈ db.users ∧ u.id = i :=
  ⟨List.mem_of_find?_eq_some h, by simpa using List.find?_some h⟩

theorem get_user_by_email_eq_none {db : DB} {e : String} :
    get_user_by_email db e = none ↔ ∀ u ∈ db.users, u.email ≠ e := by
  unfold get_user_by_email
  rw [List.find?_eq_none]
  simp

theorem get_user_by_email_some {db : DB} {e : String} {u : User}
    (h : get_user_by_email db e = some u) : u ∈ db.users ∧ u.email = e :=
  ⟨List.mem_of_find?_eq_some h, by simpa using List.find?_some h⟩

theorem get_user_by_username_eq_none {db : DB} {un : String} :
    get_user_by_username db un = none ↔ ∀ u ∈ db.users, u.username ≠ un := by
  unfold get_user_by_username
  rw [List.find?_eq_none]
  simp

theorem get_user_by_username_some {db : DB} {un : String} {u : User}
    (h : get_user_by_username db un = some u) : u ∈ db.users ∧ u.username = un :=
  ⟨List.mem_of_find?_eq_some h, by simpa using List.find?_some h⟩

theorem find?_key_eq_of_mem_nodup {α β : Type} [BEq β] [LawfulBEq β]
    {l : List α} {f : α → β} (hnd : (l.map f).Nodup) {a : α} (ha : a ∈ l) :
    l.find? (fun x => f x == f a) = some a := by
  induction l with
  | nil => cases ha
  | cons b t ih =>
    by_cases hb : (f b == f a) = true
    · rw [List.find?_cons_of_pos (p := fun x => f x == f a) _ hb]
      rcases List.mem_cons.1 ha with h | h
      · rw [h]
      · exfalso
        have : f a ∈ t.map f := List.mem_map.2 ⟨a, h, rfl⟩
        rw [← eq_of_beq hb] at this
        exact (List.nodup_cons.1 hnd).1 this
    · rw [List.find?_cons_of_neg (p := fun x => f x == f a) _ hb]
      rcases List.mem_cons.1 ha with h | h
      · exfalso
        rw [h] at hb
        simp at hb
      · exact ih (List.nodup_cons.1 hnd).2 h

theorem get_user_self {db : DB}
    (hnd : (db.users.map (fun u => u.id)).Nodup) {u : User}
    (hu : u ∈ db.users) : get_user db u.id = some u :=
  find?_key_eq_of_mem_nodup hnd hu

theorem get_user_by_email_self {db : DB}
    (hnd : (db.users.map (fun u => u.email)).Nodup) {u : User}
    (hu : u ∈ db.users) : get_user_by_email db u.email = some u :=
  find?_key_eq_of_mem_nodup hnd hu

theorem get_user_by_username_self {db : DB}
    (hnd : (db.users.map (fun u => u.username)).Nodup) {u : User}
    (hu : u ∈ db.users) : get_user_by_username db u.username = some u :=
  find?_key_eq_of_mem_nodup hnd hu

theorem find?_append_right {α : Type} {l1 l2 : List α} {p : α → Bool}
    (h : ∀ a ∈ l1, ¬ p a) : (l1 ++ l2).find? p = l2.find? p := by
  rw [List.find?_append, List.find?_eq_none.2 h]
  rfl

/-! ## Claim theorems -/

/-- C6: a list request with `skip < 0` is rejected as invalid-argument,
one with `limit` outside `[1, 1000]` likewise (never clamped); for every
`skip ≥ 0` and `limit ∈ [1, 1000]` the list operation succeeds, returning
the stored records after dropping the first `skip` and taking at most
`limit`, and a `skip` beyond the number of stored records yields the
empty sequence rather than an error. -/
theorem read_users_pagination_spec (db : DB) (skip limit : Int) :
    (skip < 0 → api_read_users db skip limit = .error ⟨400, invalidSkipMsg⟩) ∧
    (0 ≤ skip → (limit < 1 ∨ 1000 < limit) →
      api_read_users db skip limit = .error ⟨400, invalidLimitMsg⟩) ∧
    (0 ≤ skip → 1 ≤ limit → limit ≤ 1000 →
      api_read_users db skip limit =
        .ok ((db.users.drop skip.toNat).take limit.toNat) ∧
      ((db.users.drop skip.toNat).take limit.toNat).length ≤ limit.toNat ∧
      ((db.users.length : Int) ≤ skip →
        (db.users.drop skip.toNat).take limit.toNat = [])) := by
  refine ⟨fun h => ?_, fun h1 h2 => ?_, fun h1 h2 h3 => ⟨?_, ?_, fun hlen => ?_⟩⟩
  · unfold api_read_users
    rw [if_pos h]
  · unfold api_read_users
    rw [if_neg (by omega), if_pos h2]
  · unfold api_read_users get_users
    rw [if_neg (by omega), if_neg (by omega)]
  · exact List.length_take_le _ _
  · have hd : db.users.length ≤ skip.toNat := by omega
    rw [List.drop_eq_nil_of_le hd]
    simp

/-- Witness for C6 at a concrete store: two stored records, `skip = 1000`,
`limit = 100` — an in-range request whose skip exceeds the store size
yields the empty list. -/
theorem read_users_pagination_spec_witness :
    api_read_users sampleDB 1000 100 =
      .ok ((sampleDB.users.drop (1000 : Int).toNat).take (100 : Int).toNat) ∧
    ((sampleDB.users.drop (1000 : Int).toNat).take (100 : Int).toNat).length ≤
      (100 : Int).toNat ∧
    ((sampleDB.users.length : Int) ≤ 1000 →
      (sampleDB.users.drop (1000 : Int).toNat).take (100 : Int).toNat = []) :=
  (read_users_pagination_spec sampleDB 1000 100).2.2 (by decide) (by decide)
    (by decide)

/-- C5: an update whose body contains no fields at all is rejected as an
invalid-argument failure (the empty-body message when the id is valid),
and the outcome is independent of the store state and clock — no store
access happens; any body supplying at least one of email, username,
full_name or is_active (including `is_active` explicitly false) passes
this check and is never rejected with the empty-body message. -/
theorem update_empty_body_spec (db db2 : DB) (now now2 : Nat)
    (user_id : Int) (upd : UserUpdate) :
    (hasFieldsSet upd = false → 1 ≤ user_id →
      api_update_user db now user_id upd = .error ⟨400, emptyBodyMsg⟩) ∧
    (hasFieldsSet upd = false →
      api_update_user db now user_id upd = api_update_user db2 now2 user_id upd) ∧
    (hasFieldsSet upd = true →
      api_update_user db now user_id upd ≠ .error ⟨400, emptyBodyMsg⟩) := by
  refine ⟨fun h h1 => ?_, fun h => ?_, fun h => ?_⟩
  · unfold api_update_user
    rw [if_neg (by omega), if_pos (by rw [h]; rfl)]
  · by_cases hlt : user_id < 1
    · unfold api_update_user
      rw [if_pos hlt, if_pos hlt]
    · unfold api_update_user
      rw [if_neg hlt, if_neg hlt, if_pos (by rw [h]; rfl),
        if_pos (by rw [h]; rfl)]
  · unfold api_update_user
    by_cases hlt : user_id < 1
    · rw [if_pos hlt]
      intro heq
      exact absurd (congrArg ApiError.detail (Except.error.inj heq)) (by decide)
    · rw [if_neg hlt, if_neg (show ¬((!hasFieldsSet upd) = true) by rw [h]; decide)]
      cases he : emailPrecheck db user_id upd with
      | some e =>
        intro heq
        exact emailConflictMsg_ne_emptyBody e
          (congrArg ApiError.detail (Except.error.inj heq))
      | none =>
        cases hun : usernamePrecheck db user_id upd with
        | some w =>
          intro heq
          exact usernameConflictMsg_ne_emptyBody w
            (congrArg ApiError.detail (Except.error.inj heq))
        | none =>
          cases hc : update_user db now user_id.toNat upd with
          | ok r =>
            cases r with
            | none =>
              intro heq
              exact notFoundMsg_ne_emptyBody user_id
                (congrArg ApiError.detail (Except.error.inj heq))
            | some r2 =>
              intro heq
              exact Except.noConfusion heq
          | error e =>
            intro heq
            exact absurd (congrArg ApiError.detail (Except.error.inj heq)) (by decide)

/-- Witness for C5: the all-empty body is rejected with the empty-body
message, while a body carrying only `is_active := false` is not. -/
theorem update_empty_body_spec_witness :
    api_update_user sampleDB 5 1 ⟨none, none, none, none⟩ =
      .error ⟨400, emptyBodyMsg⟩ ∧
    api_update_user sampleDB 5 1 ⟨none, none, none, some (some false)⟩ ≠
      .error ⟨400, emptyBodyMsg⟩ :=
  ⟨(update_empty_body_spec sampleDB sampleDB 5 5 1
      ⟨none, none, none, none⟩).1 (by decide) (by decide),
   (update_empty_body_spec sampleDB sampleDB 5 5 1
      ⟨none, none, none, some (some false)⟩).2.2 (by decide)⟩

/-- C10: an update body that explicitly sets email (or username) to null
passes structural validation and the non-empty-body check, skips the
uniqueness pre-check for that field (the handler tests truthiness, not
presence), and the store's NOT NULL constraint rejects the applied write,
so the caller receives the conflict outcome with the generic duplicate
message rather than a structural-validation failure. -/
theorem update_null_field_spec (db : DB) (now : Nat) (user_id : Int) (u : User)
    (h1 : 1 ≤ user_id) (hu : get_user db user_id.toNat = some u) :
    (validUserUpdate ⟨some none, none, none, none⟩ = true ∧
     hasFieldsSet ⟨some none, none, none, none⟩ = true ∧
     emailPrecheck db user_id ⟨some none, none, none, none⟩ = none ∧
     api_update_user db now user_id ⟨some none, none, none, none⟩ =
       .error ⟨400, updateCommitConflictMsg⟩) ∧
    (validUserUpdate ⟨none, some none, none, none⟩ = true ∧
     hasFieldsSet ⟨none, some none, none, none⟩ = true ∧
     usernamePrecheck db user_id ⟨none, some none, none, none⟩ = none ∧
     api_update_user db now user_id ⟨none, some none, none, none⟩ =
       .error ⟨400, updateCommitConflictMsg⟩) := by
  refine ⟨⟨rfl, rfl, rfl, ?_⟩, ⟨rfl, rfl, rfl, ?_⟩⟩
  · unfold api_update_user
    rw [if_neg (by omega), if_neg (by decide)]
    rw [show update_user db now user_id.toNat ⟨some none, none, none, none⟩ =
          Except.error () from by unfold update_user; rw [hu]; rfl]
    rfl
  · unfold api_update_user
    rw [if_neg (by omega), if_neg (by decide)]
    rw [show update_user db now user_id.toNat ⟨none, some none, none, none⟩ =
          Except.error () from by unfold update_user; rw [hu]; rfl]
    rfl

/-- Witness for C10 at a concrete store and record. -/
theorem update_null_field_spec_witness :
    (validUserUpdate ⟨some none, none, none, none⟩ = true ∧
     hasFieldsSet ⟨some none, none, none, none⟩ = true ∧
     emailPrecheck sampleDB 1 ⟨some none, none, none, none⟩ = none ∧
     api_update_user sampleDB 5 1 ⟨some none, none, none, none⟩ =
       .error ⟨400, updateCommitConflictMsg⟩) ∧
    (validUserUpdate ⟨none, some none, none, none⟩ = true ∧
     hasFieldsSet ⟨none, some none, none, none⟩ = true ∧
     usernamePrecheck sampleDB 1 ⟨none, some none, none, none⟩ = none ∧
     api_update_user sampleDB 5 1 ⟨none, some none, none, none⟩ =
       .error ⟨400, updateCommitConflictMsg⟩) :=
  update_null_field_spec sampleDB 5 1 sampleU1 (by decide) (by decide)

/-- C7: deleting an existing user succeeds with no payload and removes
the record permanently: a subsequent read of the same id signals
not-found and a second delete signals not-found rather than success. -/
theorem delete_terminal_spec (db : DB) (u : User)
    (hwf : DBWf db) (hu : u ∈ db.users) :
    ∃ db2, api_delete_user db (u.id : Int) = .ok db2 ∧
      (∀ v ∈ db2.users, v.id ≠ u.id) ∧
      db2.users = db.users.filter (fun v => v.id != u.id) ∧
      api_read_user db2 (u.id : Int) = .error ⟨404, notFoundMsg (u.id : Int)⟩ ∧
      api_delete_user db2 (u.id : Int) = .error ⟨404, notFoundMsg (u.id : Int)⟩ := by
  obtain ⟨hnd, _, _, hids, _⟩ := hwf
  have hid1 : 1 ≤ u.id := (hids u hu).1
  have hget : get_user db u.id = some u := get_user_self hnd hu
  have htn : ((u.id : Int)).toNat = u.id := Int.toNat_natCast u.id
  have hmem2 : ∀ v ∈ (db.users.filter (fun v => v.id != u.id)), v.id ≠ u.id := by
    intro v hv
    have h2 := (List.mem_filter.1 hv).2
    simpa using h2
  have hnone : get_user (⟨db.users.filter (fun v => v.id != u.id), db.nextId⟩ : DB)
      u.id = none := get_user_eq_none.2 hmem2
  refine ⟨⟨db.users.filter (fun v => v.id != u.id), db.nextId⟩, ?_, hmem2, rfl, ?_, ?_⟩
  · unfold api_delete_user
    rw [if_neg (by omega), htn]
    unfold delete_user
    rw [hget]
  · unfold api_read_user
    rw [if_neg (by omega), htn, hnone]
  · unfold api_delete_user
    rw [if_neg (by omega), htn]
    unfold delete_user
    rw [hnone]

/-- Witness for C7: delete user 1 from the two-row sample store. -/
theorem delete_terminal_spec_witness :
    ∃ db2, api_delete_user sampleDB ((sampleU1.id : Nat) : Int) = .ok db2 ∧
      (∀ v ∈ db2.users, v.id ≠ sampleU1.id) ∧
      db2.users = sampleDB.users.filter (fun v => v.id != sampleU1.id) ∧
      api_read_user db2 (sampleU1.id : Int) =
        .error ⟨404, notFoundMsg (sampleU1.id : Int)⟩ ∧
      api_delete_user db2 (sampleU1.id : Int) =
        .error ⟨404, notFoundMsg (sampleU1.id : Int)⟩ :=
  delete_terminal_spec sampleDB sampleU1 (by decide) (by decide)

theorem update_user_of_get {db : DB} {now : Nat} {user_id : Nat}
    {upd : UserUpdate} {u : User} (hu : get_user db user_id = some u) :
    update_user db now user_id upd =
      match newEmailOf u upd, newUsernameOf u upd, newActiveOf u upd with
      | some e, some un, some b =>
        if db.users.any (fun v => v.id != u.id && (v.email == e || v.username == un)) then
          .error ()
        else
          let u' : User := ⟨u.id, e, un, newFullNameOf u upd, b, u.created_at, some now⟩
          .ok (some (u', ⟨db.users.map (fun v => if v.id == u.id then u' else v), db.nextId⟩))
      | _, _, _ => .error () := by
  unfold update_user
  rw [hu]

theorem api_update_ok_inversion {db : DB} {now : Nat} {user_id : Int}
    {upd : UserUpdate} {u u' : User} {db' : DB}
    (hu : get_user db user_id.toNat = some u)
    (hok : api_update_user db now user_id upd = .ok (u', db')) :
    ∃ e un b, newEmailOf u upd = some e ∧ newUsernameOf u upd = some un ∧
      newActiveOf u upd = some b ∧
      u' = ⟨u.id, e, un, newFullNameOf u upd, b, u.created_at, some now⟩ ∧
      db' = ⟨db.users.map (fun v => if v.id == u.id then u' else v), db.nextId⟩ := by
  unfold api_update_user at hok
  by_cases hlt : user_id < 1
  · rw [if_pos hlt] at hok
    exact Except.noConfusion hok
  rw [if_neg hlt] at hok
  by_cases hf : (!hasFieldsSet upd) = true
  · rw [if_pos hf] at hok
    exact Except.noConfusion hok
  rw [if_neg hf] at hok
  cases he : emailPrecheck db user_id upd with
  | some e =>
    rw [he] at hok
    exact Except.noConfusion hok
  | none =>
    rw [he] at hok
    cases hw : usernamePrecheck db user_id upd with
    | some w =>
      rw [hw] at hok
      exact Except.noConfusion hok
    | none =>
      rw [hw] at hok
      cases hc : update_user db now user_id.toNat upd with
      | error err =>
        rw [hc] at hok
        exact Except.noConfusion hok
      | ok r =>
        rw [hc] at hok
        cases r with
        | none => exact Except.noConfusion hok
        | some r2 =>
          rw [update_user_of_get hu] at hc
          split at hc
          · rename_i e un b hE hU hB
            split at hc
            · exact Except.noConfusion hc
            · have hr2 := Option.some.inj (Except.ok.inj hc)
              have hpair := Except.ok.inj hok
              rw [← hr2] at hpair
              have hpp := Prod.mk.inj hpair
              refine ⟨e, un, b, hE, hU, hB, hpp.1.symm, ?_⟩
              rw [← hpp.1]
              exact hpp.2.symm
          · exact Except.noConfusion hc

/-- C3: an accepted update changes exactly the fields present in the
payload, leaves all other fields (and `id`, `created_at`) untouched, and
stamps `updated_at` to the time of the update; the store keeps every
other row unchanged. -/
theorem update_frame_spec (db : DB) (now : Nat) (user_id : Int)
    (upd : UserUpdate) (u u' : User) (db' : DB)
    (hu : get_user db user_id.toNat = some u)
    (hok : api_update_user db now user_id upd = .ok (u', db')) :
    u'.id = u.id ∧ u'.created_at = u.created_at ∧ u'.updated_at = some now ∧
    (upd.email = none → u'.email = u.email) ∧
    (∀ v, upd.email = some (some v) → u'.email = v) ∧
    (upd.username = none → u'.username = u.username) ∧
    (∀ v, upd.username = some (some v) → u'.username = v) ∧
    (upd.full_name = none → u'.full_name = u.full_name) ∧
    (∀ v, upd.full_name = some v → u'.full_name = v) ∧
    (upd.is_active = none → u'.is_active = u.is_active) ∧
    (∀ b, upd.is_active = some (some b) → u'.is_active = b) ∧
    db' = ⟨db.users.map (fun v => if v.id == u.id then u' else v), db.nextId⟩ := by
  obtain ⟨e, un, b, hE, hU, hB, hu', hdb'⟩ := api_update_ok_inversion hu hok
  subst hu'
  refine ⟨rfl, rfl, rfl, ?_, ?_, ?_, ?_, ?_, ?_, ?_, ?_, hdb'⟩
  · intro h
    unfold newEmailOf at hE
    rw [h] at hE
    exact (Option.some.inj hE).symm
  · intro v h
    unfold newEmailOf at hE
    rw [h] at hE
    exact (Option.some.inj hE).symm
  · intro h
    unfold newUsernameOf at hU
    rw [h] at hU
    exact (Option.some.inj hU).symm
  · intro v h
    unfold newUsernameOf at hU
    rw [h] at hU
    exact (Option.some.inj hU).symm
  · intro h
    show newFullNameOf u upd = u.full_name
    unfold newFullNameOf
    rw [h]
  · intro v h
    show newFullNameOf u upd = v
    unfold newFullNameOf
    rw [h]
  · intro h
    unfold newActiveOf at hB
    rw [h] at hB
    exact (Option.some.inj hB).symm
  · intro b2 h
    unfold newActiveOf at hB
    rw [h] at hB
    exact (Option.some.inj hB).symm

/-- Witness for C3: updating only `full_name` of user 1 in the sample
store leaves email, username, is_active and created_at unchanged and
stamps `updated_at`. -/
theorem update_frame_spec_witness :
    (⟨1, "a@x.com", "alice", some "X", true, 0, some 5⟩ : User).id = sampleU1.id ∧
    (⟨1, "a@x.com", "alice", some "X", true, 0, some 5⟩ : User).created_at =
      sampleU1.created_at ∧
    (⟨1, "a@x.com", "alice", some "X", true, 0, some 5⟩ : User).updated_at = some 5 ∧
    ((⟨none, none, some (some "X"), none⟩ : UserUpdate).email = none →
      (⟨1, "a@x.com", "alice", some "X", true, 0, some 5⟩ : User).email =
        sampleU1.email) ∧
    (∀ v, (⟨none, none, some (some "X"), none⟩ : UserUpdate).email = some (some v) →
      (⟨1, "a@x.com", "alice", some "X", true, 0, some 5⟩ : User).email = v) ∧
    ((⟨none, none, some (some "X"), none⟩ : UserUpdate).username = none →
      (⟨1, "a@x.com", "alice", some "X", true, 0, some 5⟩ : User).username =
        sampleU1.username) ∧
    (∀ v, (⟨none, none, some (some "X"), none⟩ : UserUpdate).username = some (some v) →
      (⟨1, "a@x.com", "alice", some "X", true, 0, some 5⟩ : User).username = v) ∧
    ((⟨none, none, some (some "X"), none⟩ : UserUpdate).full_name = none →
      (⟨1, "a@x.com", "alice", some "X", true, 0, some 5⟩ : User).full_name =
        sampleU1.full_name) ∧
    (∀ v, (⟨none, none, some (some "X"), none⟩ : UserUpdate).full_name = some v →
      (⟨1, "a@x.com", "alice", some "X", true, 0, some 5⟩ : User).full_name = v) ∧
    ((⟨none, none, some (some "X"), none⟩ : UserUpdate).is_active = none →
      (⟨1, "a@x.com", "alice", some "X", true, 0, some 5⟩ : User).is_active =
        sampleU1.is_active) ∧
    (∀ b, (⟨none, none, some (some "X"), none⟩ : UserUpdate).is_active = some (some b) →
      (⟨1, "a@x.com", "alice", some "X", true, 0, some 5⟩ : User).is_active = b) ∧
    (⟨[⟨1, "a@x.com", "alice", some "X", true, 0, some 5⟩, sampleU2], 3⟩ : DB) =
      ⟨sampleDB.users.map (fun v =>
        if v.id == sampleU1.id
        then (⟨1, "a@x.com", "alice", some "X", true, 0, some 5⟩ : User) else v),
       sampleDB.nextId⟩ :=
  update_frame_spec sampleDB 5 1 ⟨none, none, some (some "X"), none⟩ sampleU1
    ⟨1, "a@x.com", "alice", some "X", true, 0, some 5⟩
    ⟨[⟨1, "a@x.com", "alice", some "X", true, 0, some 5⟩, sampleU2], 3⟩
    (by decide) (by decide)

theorem api_create_ok_inversion {db db' : DB} {now : Nat} {p : UserCreate}
    {u : User} (hok : api_create_user db now p = .ok (u, db')) :
    u = ⟨db.nextId, p.email, p.username, p.full_name, p.is_active, now, none⟩ ∧
    db' = ⟨db.users ++ [u], db.nextId + 1⟩ ∧
    get_user_by_email db p.email = none ∧
    get_user_by_username db p.username = none := by
  unfold api_create_user api_create_user_race at hok
  cases he : get_user_by_email db p.email with
  | some w =>
    rw [he] at hok
    exact Except.noConfusion hok
  | none =>
    rw [he] at hok
    cases hw : get_user_by_username db p.username with
    | some w =>
      rw [hw] at hok
      exact Except.noConfusion hok
    | none =>
      rw [hw] at hok
      cases hc : create_user db now p with
      | error err =>
        rw [hc] at hok
        exact Except.noConfusion hok
      | ok r =>
        rw [hc] at hok
        have hru := Except.ok.inj hok
        unfold create_user at hc
        split at hc
        · exact Except.noConfusion hc
        · have hr := Except.ok.inj hc
          rw [hru] at hr
          have hpp := Prod.mk.inj hr
          refine ⟨hpp.1.symm, ?_, rfl, rfl⟩
          rw [← hpp.1]
          exact hpp.2.symm

theorem validateUserCreate_inversion {i : UserCreateInput} {p : UserCreate}
    (hv : validateUserCreate i = some p) :
    ∃ e un, i.email = some e ∧ i.username = some un ∧
      p = ⟨e, un, i.full_name, i.is_active.getD true⟩ := by
  unfold validateUserCreate at hv
  split at hv
  · rename_i e un ie iu
    split at hv
    · exact ⟨e, un, ie, iu, (Option.some.inj hv).symm⟩
    · exact Option.noConfusion hv
  · exact Option.noConfusion hv

/-- C8: for every validated create payload that is accepted, reading the
created record by its assigned id returns a record equal to the payload on
every supplied field, carrying the server-assigned id and `created_at`,
with `is_active = true` whenever it was omitted from the raw body and
`updated_at` absent. -/
theorem create_read_roundtrip_spec (db : DB) (now : Nat) (i : UserCreateInput)
    (p : UserCreate) (u : User) (db' : DB)
    (hwf : DBWf db) (hv : validateUserCreate i = some p)
    (hok : api_create_user db now p = .ok (u, db')) :
    api_read_user db' (u.id : Int) = .ok u ∧
    u.email = p.email ∧ u.username = p.username ∧
    u.full_name = p.full_name ∧ u.is_active = p.is_active ∧
    (∀ e, i.email = some e → u.email = e) ∧
    (∀ un, i.username = some un → u.username = un) ∧
    (∀ f, i.full_name = some f → u.full_name = some f) ∧
    (∀ b, i.is_active = some b → u.is_active = b) ∧
    (i.is_active = none → u.is_active = true) ∧
    u.created_at = now ∧ u.updated_at = none ∧ u.id = db.nextId ∧
    db'.users = db.users ++ [u] := by
  obtain ⟨hu, hdb', _, _⟩ := api_create_ok_inversion hok
  obtain ⟨e, un, ie, iu, hp⟩ := validateUserCreate_inversion hv
  obtain ⟨hnd, _, _, hids, hnx⟩ := hwf
  have hid : u.id = db.nextId := by rw [hu]
  have hread : api_read_user db' (u.id : Int) = .ok u := by
    unfold api_read_user
    rw [if_neg (by omega), Int.toNat_natCast]
    have hget : get_user db' u.id = some u := by
      unfold get_user
      rw [hdb']
      rw [find?_append_right (fun v hv2 => by
        simp only [beq_iff_eq]
        have := (hids v hv2).2
        omega)]
      simp
    rw [hget]
  refine ⟨hread, by rw [hu], by rw [hu], by rw [hu], by rw [hu], ?_, ?_, ?_, ?_, ?_,
    by rw [hu], by rw [hu], hid, by rw [hdb']⟩
  · intro e2 he2
    rw [ie] at he2
    rw [hu, hp]
    exact Option.some.inj he2
  · intro un2 hun2
    rw [iu] at hun2
    rw [hu, hp]
    exact Option.some.inj hun2
  · intro f hf
    rw [hu, hp]
    exact hf
  · intro b hb
    rw [hu, hp]
    show i.is_active.getD true = b
    rw [hb]
    rfl
  · intro hb
    rw [hu, hp]
    show i.is_active.getD true = true
    rw [hb]
    rfl

/-- Witness for C8: creating `{email: "c@x.com", username: "carol"}` (no
full_name, no is_active) against the sample store and reading it back. -/
theorem create_read_roundtrip_spec_witness :
    api_read_user sampleDB3 (sampleU3.id : Int) = .ok sampleU3 ∧
    sampleU3.email = sampleP.email ∧ sampleU3.username = sampleP.username ∧
    sampleU3.full_name = sampleP.full_name ∧ sampleU3.is_active = sampleP.is_active ∧
    (∀ e, sampleInput.email = some e → sampleU3.email = e) ∧
    (∀ un, sampleInput.username = some un → sampleU3.username = un) ∧
    (∀ f, sampleInput.full_name = some f → sampleU3.full_name = some f) ∧
    (∀ b, sampleInput.is_active = some b → sampleU3.is_active = b) ∧
    (sampleInput.is_active = none → sampleU3.is_active = true) ∧
    sampleU3.created_at = 7 ∧ sampleU3.updated_at = none ∧
    sampleU3.id = sampleDB.nextId ∧
    sampleDB3.users = sampleDB.users ++ [sampleU3] :=
  create_read_roundtrip_spec sampleDB 7 sampleInput sampleP sampleU3 sampleDB3
    (by decide) (by decide) (by decide)

/-- C1: for every structurally valid create request, the operation first
looks up by email (rejecting with a conflict naming the email), then by
username (rejecting with a conflict naming the username), then inserts;
and when the store's unique-constraint enforcement rejects the insert
despite both pre-checks passing (the snapshots `db1`/`db2` seen by the
pre-checks were clean but the commit store `db3` is not), it rejects with
the generic duplicate message — the insert is the authoritative arbiter. -/
theorem create_order_spec (now : Nat) (p : UserCreate) (db1 db2 db3 : DB) :
    strHas (emailConflictMsg p.email) p.email = true ∧
    strHas (usernameConflictMsg p.username) p.username = true ∧
    ((∃ u ∈ db1.users, u.email = p.email) →
      api_create_user_race now p db1 db2 db3 =
        .error ⟨400, emailConflictMsg p.email⟩) ∧
    ((∀ u ∈ db1.users, u.email ≠ p.email) →
      (∃ u ∈ db2.users, u.username = p.username) →
      api_create_user_race now p db1 db2 db3 =
        .error ⟨400, usernameConflictMsg p.username⟩) ∧
    ((∀ u ∈ db1.users, u.email ≠ p.email) →
      (∀ u ∈ db2.users, u.username ≠ p.username) →
      (∃ u ∈ db3.users, u.email = p.email ∨ u.username = p.username) →
      api_create_user_race now p db1 db2 db3 =
        .error ⟨400, createCommitConflictMsg⟩) ∧
    ((∀ u ∈ db1.users, u.email ≠ p.email) →
      (∀ u ∈ db2.users, u.username ≠ p.username) →
      (∀ u ∈ db3.users, u.email ≠ p.email ∧ u.username ≠ p.username) →
      api_create_user_race now p db1 db2 db3 =
        .ok (⟨db3.nextId, p.email, p.username, p.full_name, p.is_active, now, none⟩,
          ⟨db3.users ++
            [⟨db3.nextId, p.email, p.username, p.full_name, p.is_active, now, none⟩],
           db3.nextId + 1⟩)) := by
  refine ⟨?_, ?_, fun h1 => ?_, fun h1 h2 => ?_, fun h1 h2 h3 => ?_, fun h1 h2 h3 => ?_⟩
  · unfold emailConflictMsg
    exact strHas_append _ _ _
  · unfold usernameConflictMsg
    exact strHas_append _ _ _
  · obtain ⟨u0, hu0, he0⟩ := h1
    have hs : (get_user_by_email db1 p.email).isSome = true := by
      unfold get_user_by_email
      exact List.find?_isSome.2 ⟨u0, hu0, by simp [he0]⟩
    obtain ⟨w, hw⟩ := Option.isSome_iff_exists.1 hs
    unfold api_create_user_race
    rw [hw]
  · rw [show api_create_user_race now p db1 db2 db3 =
        match get_user_by_username db2 p.username with
        | some _ => .error ⟨400, usernameConflictMsg p.username⟩
        | none =>
          match create_user db3 now p with
          | .ok r => .ok r
          | .error _ => .error ⟨400, createCommitConflictMsg⟩ from by
      unfold api_create_user_race
      rw [get_user_by_email_eq_none.2 h1]]
    obtain ⟨u0, hu0, hn0⟩ := h2
    have hs : (get_user_by_username db2 p.username).isSome = true := by
      unfold get_user_by_username
      exact List.find?_isSome.2 ⟨u0, hu0, by simp [hn0]⟩
    obtain ⟨w, hw⟩ := Option.isSome_iff_exists.1 hs
    rw [hw]
  · unfold api_create_user_race
    rw [get_user_by_email_eq_none.2 h1, get_user_by_username_eq_none.2 h2]
    have hA : (db3.users.any fun v => v.email == p.email || v.username == p.username)
        = true := by
      obtain ⟨u0, hu0, hor⟩ := h3
      refine List.any_eq_true.2 ⟨u0, hu0, ?_⟩
      rcases hor with h | h <;> simp [h]
    rw [show create_user db3 now p = .error () from by
      unfold create_user; rw [if_pos hA]]
  · unfold api_create_user_race
    rw [get_user_by_email_eq_none.2 h1, get_user_by_username_eq_none.2 h2]
    have hA : (db3.users.any fun v => v.email == p.email || v.username == p.username)
        = false := by
      refine List.any_eq_false.2 (fun v hv => ?_)
      obtain ⟨hne, hnu⟩ := h3 v hv
      simp [hne, hnu]
    rw [show create_user db3 now p =
        .ok (⟨db3.nextId, p.email, p.username, p.full_name, p.is_active, now, none⟩,
          ⟨db3.users ++
            [⟨db3.nextId, p.email, p.username, p.full_name, p.is_active, now, none⟩],
           db3.nextId + 1⟩) from by
      unfold create_user
      rw [if_neg (by rw [hA]; exact Bool.false_ne_true)]]

/-- Witness for C1, exercising the commit-time arbiter: both pre-checks
look at empty snapshots and pass, but the insert commits against the
populated sample store and is rejected with the generic message. -/
theorem create_order_spec_witness :
    api_create_user_race 7 ⟨"a@x.com", "newname", none, true⟩ ⟨[], 1⟩ ⟨[], 1⟩ sampleDB =
      .error ⟨400, createCommitConflictMsg⟩ :=
  (create_order_spec 7 ⟨"a@x.com", "newname", none, true⟩ ⟨[], 1⟩ ⟨[], 1⟩
      sampleDB).2.2.2.2.1 (by decide) (by decide)
    ⟨sampleU1, by decide, Or.inl (by decide)⟩

theorem emailPrecheck_some {db : DB} {user_id : Int} {upd : UserUpdate} {e : String}
    (h : emailPrecheck db user_id upd = some e) :
    upd.email = some (some e) ∧
    ∃ u ∈ db.users, u.email = e ∧ (u.id : Int) ≠ user_id := by
  unfold emailPrecheck at h
  split at h
  · rename_i e2 he2
    split at h
    · split at h
      · rename_i existing hg
        split at h
        · rename_i hid
          obtain ⟨hmem, hem⟩ := get_user_by_email_some hg
          have he' := Option.some.inj h
          subst he'
          exact ⟨he2, existing, hmem, hem, by simpa using hid⟩
        · exact Option.noConfusion h
      · exact Option.noConfusion h
    · exact Option.noConfusion h
  · exact Option.noConfusion h

theorem usernamePrecheck_some {db : DB} {user_id : Int} {upd : UserUpdate} {un : String}
    (h : usernamePrecheck db user_id upd = some un) :
    upd.username = some (some un) ∧
    ∃ u ∈ db.users, u.username = un ∧ (u.id : Int) ≠ user_id := by
  unfold usernamePrecheck at h
  split at h
  · rename_i un2 hun2
    split at h
    · split at h
      · rename_i existing hg
        split at h
        · rename_i hid
          obtain ⟨hmem, hnm⟩ := get_user_by_username_some hg
          have hun' := Option.some.inj h
          subst hun'
          exact ⟨hun2, existing, hmem, hnm, by simpa using hid⟩
        · exact Option.noConfusion h
      · exact Option.noConfusion h
    · exact Option.noConfusion h
  · exact Option.noConfusion h

/-- C4: every conflict and every not-found outcome of create, read,
update and delete carries a message naming the offending field or the
offending user id: pre-check conflicts embed the offending value and the
field name, commit-time conflicts name both candidate fields (email and
username), not-found outcomes embed the requested id; the only other
errors are the two fixed invalid-argument messages. -/
theorem error_message_naming_spec :
    (∀ now p db1 db2 db3 er, api_create_user_race now p db1 db2 db3 = .error er →
      (er.status_code = 400 ∧ er.detail = emailConflictMsg p.email ∧
        strHas er.detail p.email = true ∧ (∃ u ∈ db1.users, u.email = p.email)) ∨
      (er.status_code = 400 ∧ er.detail = usernameConflictMsg p.username ∧
        strHas er.detail p.username = true ∧
        (∃ u ∈ db2.users, u.username = p.username)) ∨
      (er.status_code = 400 ∧ er.detail = createCommitConflictMsg ∧
        strHas er.detail "email" = true ∧ strHas er.detail "username" = true ∧
        (∃ u ∈ db3.users, u.email = p.email ∨ u.username = p.username))) ∧
    (∀ db user_id er, api_read_user db user_id = .error er →
      er = ⟨400, invalidIdMsg⟩ ∨
      (er.status_code = 404 ∧ er.detail = notFoundMsg user_id ∧
        strHas er.detail (toString user_id) = true)) ∧
    (∀ db now user_id upd er, api_update_user db now user_id upd = .error er →
      er = ⟨400, invalidIdMsg⟩ ∨ er = ⟨400, emptyBodyMsg⟩ ∨
      (∃ e, upd.email = some (some e) ∧ er.status_code = 400 ∧
        er.detail = emailConflictMsg e ∧ strHas er.detail e = true ∧
        (∃ u ∈ db.users, u.email = e ∧ (u.id : Int) ≠ user_id)) ∨
      (∃ un, upd.username = some (some un) ∧ er.status_code = 400 ∧
        er.detail = usernameConflictMsg un ∧ strHas er.detail un = true ∧
        (∃ u ∈ db.users, u.username = un ∧ (u.id : Int) ≠ user_id)) ∨
      (er.status_code = 404 ∧ er.detail = notFoundMsg user_id ∧
        strHas er.detail (toString user_id) = true) ∨
      (er.status_code = 400 ∧ er.detail = updateCommitConflictMsg ∧
        strHas er.detail "Email" = true ∧ strHas er.detail "username" = true)) ∧
    (∀ db user_id er, api_delete_user db user_id = .error er →
      er = ⟨400, invalidIdMsg⟩ ∨
      (er.status_code = 404 ∧ er.detail = notFoundMsg user_id ∧
        strHas er.detail (toString user_id) = true)) := by
  refine ⟨fun now p db1 db2 db3 er her => ?_, fun db user_id er her => ?_,
    fun db now user_id upd er her => ?_, fun db user_id er her => ?_⟩
  · unfold api_create_user_race at her
    cases he : get_user_by_email db1 p.email with
    | some w =>
      rw [he] at her
      obtain rfl := (Except.error.inj her).symm
      obtain ⟨hmem, hem⟩ := get_user_by_email_some he
      exact Or.inl ⟨rfl, rfl, by unfold emailConflictMsg; exact strHas_append _ _ _,
        w, hmem, hem⟩
    | none =>
      rw [he] at her
      cases hw : get_user_by_username db2 p.username with
      | some w =>
        rw [hw] at her
        obtain rfl := (Except.error.inj her).symm
        obtain ⟨hmem, hnm⟩ := get_user_by_username_some hw
        exact Or.inr (Or.inl ⟨rfl, rfl,
          by unfold usernameConflictMsg; exact strHas_append _ _ _, w, hmem, hnm⟩)
      | none =>
        rw [hw] at her
        cases hc : create_user db3 now p with
        | ok r =>
          rw [hc] at her
          exact Except.noConfusion her
        | error err0 =>
          rw [hc] at her
          obtain rfl := (Except.error.inj her).symm
          unfold create_user at hc
          split at hc
          · rename_i hA
            obtain ⟨u0, hu0, hb⟩ := List.any_eq_true.1 hA
            simp only [Bool.or_eq_true, beq_iff_eq] at hb
            exact Or.inr (Or.inr ⟨rfl, rfl, by decide, by decide, u0, hu0, hb⟩)
          · exact Except.noConfusion hc
  · unfold api_read_user at her
    by_cases hlt : user_id < 1
    · rw [if_pos hlt] at her
      exact Or.inl (Except.error.inj her).symm
    · rw [if_neg hlt] at her
      cases hg : get_user db user_id.toNat with
      | some w =>
        rw [hg] at her
        exact Except.noConfusion her
      | none =>
        rw [hg] at her
        obtain rfl := (Except.error.inj her).symm
        exact Or.inr ⟨rfl, rfl, by unfold notFoundMsg; exact strHas_append _ _ _⟩
  · unfold api_update_user at her
    by_cases hlt : user_id < 1
    · rw [if_pos hlt] at her
      exact Or.inl (Except.error.inj her).symm
    rw [if_neg hlt] at her
    by_cases hf : (!hasFieldsSet upd) = true
    · rw [if_pos hf] at her
      exact Or.inr (Or.inl (Except.error.inj her).symm)
    rw [if_neg hf] at her
    cases he : emailPrecheck db user_id upd with
    | some e =>
      rw [he] at her
      obtain rfl := (Except.error.inj her).symm
      obtain ⟨hset, hex⟩ := emailPrecheck_some he
      exact Or.inr (Or.inr (Or.inl ⟨e, hset, rfl, rfl,
        by unfold emailConflictMsg; exact strHas_append _ _ _, hex⟩))
    | none =>
      rw [he] at her
      cases hw : usernamePrecheck db user_id upd with
      | some un =>
        rw [hw] at her
        obtain rfl := (Except.error.inj her).symm
        obtain ⟨hset, hex⟩ := usernamePrecheck_some hw
        exact Or.inr (Or.inr (Or.inr (Or.inl ⟨un, hset, rfl, rfl,
          by unfold usernameConflictMsg; exact strHas_append _ _ _, hex⟩)))
      | none =>
        rw [hw] at her
        cases hc : update_user db now user_id.toNat upd with
        | ok r =>
          rw [hc] at her
          cases r with
          | none =>
            obtain rfl := (Except.error.inj her).symm
            exact Or.inr (Or.inr (Or.inr (Or.inr (Or.inl ⟨rfl, rfl,
              by unfold notFoundMsg; exact strHas_append _ _ _⟩))))
          | some r2 =>
            exact Except.noConfusion her
        | error err0 =>
          rw [hc] at her
          obtain rfl := (Except.error.inj her).symm
          exact Or.inr (Or.inr (Or.inr (Or.inr (Or.inr
            ⟨rfl, rfl, by decide, by decide⟩))))
  · unfold api_delete_user at her
    by_cases hlt : user_id < 1
    · rw [if_pos hlt] at her
      exact Or.inl (Except.error.inj her).symm
    · rw [if_neg hlt] at her
      cases hd : delete_user db user_id.toNat with
      | mk b dbx =>
        rw [hd] at her
        cases b with
        | true => exact Except.noConfusion her
        | false =>
          obtain rfl := (Except.error.inj her).symm
          exact Or.inr ⟨rfl, rfl, by unfold notFoundMsg; exact strHas_append _ _ _⟩

/-- Witness for C4: a read of the missing id 9 against the sample store
produces a 404 whose message embeds the id. -/
theorem error_message_naming_spec_witness :
    (⟨404, notFoundMsg 9⟩ : ApiError) = ⟨400, invalidIdMsg⟩ ∨
    ((⟨404, notFoundMsg 9⟩ : ApiError).status_code = 404 ∧
      (⟨404, notFoundMsg 9⟩ : ApiError).detail = notFoundMsg 9 ∧
      strHas (⟨404, notFoundMsg 9⟩ : ApiError).detail (toString (9 : Int)) = true) :=
  error_message_naming_spec.2.1 sampleDB 9 ⟨404, notFoundMsg 9⟩ (by decide)

theorem emailPrecheck_set (db : DB) (user_id : Int) (e : String)
    (o2 o3 : Option (Option String)) (o4 : Option (Option Bool)) :
    emailPrecheck db user_id ⟨some (some e), o2, o3, o4⟩ =
      if (e != "") = true then
        match get_user_by_email db e with
        | some existing =>
          if ((existing.id : Int) != user_id) = true then some e else none
        | none => none
      else none := rfl

theorem usernamePrecheck_set (db : DB) (user_id : Int) (un : String)
    (o1 o3 : Option (Option String)) (o4 : Option (Option Bool)) :
    usernamePrecheck db user_id ⟨o1, some (some un), o3, o4⟩ =
      if (un != "") = true then
        match get_user_by_username db un with
        | some existing =>
          if ((existing.id : Int) != user_id) = true then some un else none
        | none => none
      else none := rfl

theorem no_other_conflict {db : DB} (hwf : DBWf db) {u : User} (hu : u ∈ db.users) :
    (db.users.any fun v =>
      v.id != u.id && (v.email == u.email || v.username == u.username)) = false := by
  obtain ⟨hnid, hne, hnu, _, _⟩ := hwf
  refine List.any_eq_false.2 (fun v hv => ?_)
  simp only [Bool.and_eq_true, bne_iff_ne, Bool.or_eq_true, beq_iff_eq,
    not_and, not_or]
  intro hvne
  constructor
  · intro hem
    exact hvne (congrArg User.id (List.inj_on_of_nodup_map hne hv hu hem))
  · intro hun
    exact hvne (congrArg User.id (List.inj_on_of_nodup_map hnu hv hu hun))

theorem update_user_email_payload {db : DB} {now : Nat} {user_id : Nat}
    {x : String} {u : User} (hg : get_user db user_id = some u) :
    update_user db now user_id ⟨some (some x), none, none, none⟩ =
      if (db.users.any fun v =>
          v.id != u.id && (v.email == x || v.username == u.username)) = true then
        .error ()
      else
        .ok (some
          (⟨u.id, x, u.username, u.full_name, u.is_active, u.created_at, some now⟩,
           ⟨db.users.map (fun v => if v.id == u.id
              then ⟨u.id, x, u.username, u.full_name, u.is_active, u.created_at, some now⟩
              else v), db.nextId⟩)) := by
  rw [update_user_of_get hg]
  rfl

theorem update_user_username_payload {db : DB} {now : Nat} {user_id : Nat}
    {x : String} {u : User} (hg : get_user db user_id = some u) :
    update_user db now user_id ⟨none, some (some x), none, none⟩ =
      if (db.users.any fun v =>
          v.id != u.id && (v.email == u.email || v.username == x)) = true then
        .error ()
      else
        .ok (some
          (⟨u.id, u.email, x, u.full_name, u.is_active, u.created_at, some now⟩,
           ⟨db.users.map (fun v => if v.id == u.id
              then ⟨u.id, u.email, x, u.full_name, u.is_active, u.created_at, some now⟩
              else v), db.nextId⟩)) := by
  rw [update_user_of_get hg]
  rfl

/-- C2: updating a record's email (or username) to the value it already
holds succeeds — no conflict is ever reported against the record itself —
and an email/username conflict is reported only when some other record,
with a different id, already holds the supplied value. -/
theorem update_self_value_spec (db : DB) (now : Nat) (u : User)
    (hwf : DBWf db) (hu : u ∈ db.users) :
    api_update_user db now (u.id : Int) ⟨some (some u.email), none, none, none⟩ =
      .ok (⟨u.id, u.email, u.username, u.full_name, u.is_active, u.created_at, some now⟩,
        ⟨db.users.map (fun v => if v.id == u.id
          then ⟨u.id, u.email, u.username, u.full_name, u.is_active, u.created_at, some now⟩
          else v), db.nextId⟩) ∧
    api_update_user db now (u.id : Int) ⟨none, some (some u.username), none, none⟩ =
      .ok (⟨u.id, u.email, u.username, u.full_name, u.is_active, u.created_at, some now⟩,
        ⟨db.users.map (fun v => if v.id == u.id
          then ⟨u.id, u.email, u.username, u.full_name, u.is_active, u.created_at, some now⟩
          else v), db.nextId⟩) ∧
    (∀ user_id upd er v, api_update_user db now user_id upd = .error er →
      er.detail = emailConflictMsg v →
      ∃ w ∈ db.users, w.email = v ∧ (w.id : Int) ≠ user_id) ∧
    (∀ user_id upd er v, api_update_user db now user_id upd = .error er →
      er.detail = usernameConflictMsg v →
      ∃ w ∈ db.users, w.username = v ∧ (w.id : Int) ≠ user_id) := by
  obtain ⟨hnid, hne, hnu, hids, hnx⟩ := hwf
  have hid1 := (hids u hu).1
  have hget : get_user db ((u.id : Int)).toNat = some u := by
    rw [Int.toNat_natCast]
    exact get_user_self hnid hu
  have hnoc := no_other_conflict ⟨hnid, hne, hnu, hids, hnx⟩ hu
  refine ⟨?_, ?_, fun user_id upd er v her hdet => ?_, fun user_id upd er v her hdet => ?_⟩
  · unfold api_update_user
    rw [if_neg (by omega), if_neg (show ¬((!hasFieldsSet
      ⟨some (some u.email), none, none, none⟩) = true) from Bool.false_ne_true)]
    rw [show emailPrecheck db (u.id : Int) ⟨some (some u.email), none, none, none⟩
        = none from by
      rw [emailPrecheck_set]
      by_cases hs : (u.email != "") = true
      · rw [if_pos hs, get_user_by_email_self hne hu]
        simp
      · rw [if_neg hs]]
    rw [show usernamePrecheck db (u.id : Int) ⟨some (some u.email), none, none, none⟩
        = none from rfl]
    rw [update_user_email_payload hget,
      if_neg (by rw [hnoc]; exact Bool.false_ne_true)]
  · unfold api_update_user
    rw [if_neg (by omega), if_neg (show ¬((!hasFieldsSet
      ⟨none, some (some u.username), none, none⟩) = true) from Bool.false_ne_true)]
    rw [show emailPrecheck db (u.id : Int) ⟨none, some (some u.username), none, none⟩
        = none from rfl]
    rw [show usernamePrecheck db (u.id : Int) ⟨none, some (some u.username), none, none⟩
        = none from by
      rw [usernamePrecheck_set]
      by_cases hs : (u.username != "") = true
      · rw [if_pos hs, get_user_by_username_self hnu hu]
        simp
      · rw [if_neg hs]]
    rw [update_user_username_payload hget,
      if_neg (by rw [hnoc]; exact Bool.false_ne_true)]
  · unfold api_update_user at her
    by_cases hlt : user_id < 1
    · rw [if_pos hlt] at her
      obtain rfl := (Except.error.inj her).symm
      exact absurd hdet.symm (emailConflictMsg_ne_invalidId v)
    rw [if_neg hlt] at her
    by_cases hf : (!hasFieldsSet upd) = true
    · rw [if_pos hf] at her
      obtain rfl := (Except.error.inj her).symm
      exact absurd hdet.symm (emailConflictMsg_ne_emptyBody v)
    rw [if_neg hf] at her
    cases he : emailPrecheck db user_id upd with
    | some e =>
      rw [he] at her
      obtain rfl := (Except.error.inj her).symm
      obtain ⟨hset, w, hwm, hwe, hwid⟩ := emailPrecheck_some he
      have hev : e = v := emailConflictMsg_inj hdet
      exact ⟨w, hwm, hev ▸ hwe, hwid⟩
    | none =>
      rw [he] at her
      cases hw : usernamePrecheck db user_id upd with
      | some un =>
        rw [hw] at her
        obtain rfl := (Except.error.inj her).symm
        exact absurd hdet (usernameConflictMsg_ne_emailConflict un v)
      | none =>
        rw [hw] at her
        cases hc : update_user db now user_id.toNat upd with
        | ok r =>
          rw [hc] at her
          cases r with
          | none =>
            obtain rfl := (Except.error.inj her).symm
            exact absurd hdet.symm (emailConflictMsg_ne_notFound v user_id)
          | some r2 => exact Except.noConfusion her
        | error err0 =>
          rw [hc] at her
          obtain rfl := (Except.error.inj her).symm
          exact absurd hdet.symm (emailConflictMsg_ne_updateCommit v)
  · unfold api_update_user at her
    by_cases hlt : user_id < 1
    · rw [if_pos hlt] at her
      obtain rfl := (Except.error.inj her).symm
      exact absurd hdet.symm (usernameConflictMsg_ne_invalidId v)
    rw [if_neg hlt] at her
    by_cases hf : (!hasFieldsSet upd) = true
    · rw [if_pos hf] at her
      obtain rfl := (Except.error.inj her).symm
      exact absurd hdet.symm (usernameConflictMsg_ne_emptyBody v)
    rw [if_neg hf] at her
    cases he : emailPrecheck db user_id upd with
    | some e =>
      rw [he] at her
      obtain rfl := (Except.error.inj her).symm
      exact absurd hdet.symm (usernameConflictMsg_ne_emailConflict v e)
    | none =>
      rw [he] at her
      cases hw : usernamePrecheck db user_id upd with
      | some un =>
        rw [hw] at her
        obtain rfl := (Except.error.inj her).symm
        obtain ⟨hset, w, hwm, hwn, hwid⟩ := usernamePrecheck_some hw
        have huv : un = v := usernameConflictMsg_inj hdet
        exact ⟨w, hwm, huv ▸ hwn, hwid⟩
      | none =>
        rw [hw] at her
        cases hc : update_user db now user_id.toNat upd with
        | ok r =>
          rw [hc] at her
          cases r with
          | none =>
            obtain rfl := (Except.error.inj her).symm
            exact absurd hdet.symm (usernameConflictMsg_ne_notFound v user_id)
          | some r2 => exact Except.noConfusion her
        | error err0 =>
          rw [hc] at her
          obtain rfl := (Except.error.inj her).symm
          exact absurd hdet.symm (usernameConflictMsg_ne_updateCommit v)

/-- Witness for C2: the self-email update of user 1 in the sample store
succeeds, stamping only `updated_at`. -/
theorem update_self_value_spec_witness :
    api_update_user sampleDB 5 (sampleU1.id : Int)
      ⟨some (some sampleU1.email), none, none, none⟩ =
      .ok (⟨sampleU1.id, sampleU1.email, sampleU1.username, sampleU1.full_name,
            sampleU1.is_active, sampleU1.created_at, some 5⟩,
        ⟨sampleDB.users.map (fun v => if v.id == sampleU1.id
          then ⟨sampleU1.id, sampleU1.email, sampleU1.username, sampleU1.full_name,
                sampleU1.is_active, sampleU1.created_at, some 5⟩
          else v), sampleDB.nextId⟩) :=
  (update_self_value_spec sampleDB 5 sampleU1 (by decide) (by decide)).1

/-! ## C9: interleaving-machine lemmas -/

theorem emailPrecheck_none_char {db : DB} {user_id : Int} {upd : UserUpdate}
    {x : String} (hset : upd.email = some (some x))
    (hnone : get_user_by_email db x = none) :
    emailPrecheck db user_id upd = none := by
  obtain ⟨f1, f2, f3, f4⟩ := upd
  cases hset
  rw [emailPrecheck_set]
  by_cases hs : (x != "") = true
  · rw [if_pos hs, hnone]
  · rw [if_neg hs]

theorem emailPrecheck_conflict_char {db : DB} {user_id : Int} {upd : UserUpdate}
    {x : String} {existing : User} (hset : upd.email = some (some x)) (hx : x ≠ "")
    (hfound : get_user_by_email db x = some existing)
    (hid : (existing.id : Int) ≠ user_id) :
    emailPrecheck db user_id upd = some x := by
  obtain ⟨f1, f2, f3, f4⟩ := upd
  cases hset
  rw [emailPrecheck_set, if_pos (by simpa using hx), hfound]
  show (if ((existing.id : Int) != user_id) = true then some x else none) = some x
  rw [if_pos (by simpa using hid)]

theorem usernamePrecheck_unset_char {db : DB} {user_id : Int} {upd : UserUpdate}
    (hset : upd.username = none) :
    usernamePrecheck db user_id upd = none := by
  obtain ⟨f1, f2, f3, f4⟩ := upd
  cases hset
  rfl

theorem newEmailOf_set {u : User} {upd : UserUpdate} {x : String}
    (hset : upd.email = some (some x)) : newEmailOf u upd = some x := by
  unfold newEmailOf
  rw [hset]

theorem newUsernameOf_unset {u : User} {upd : UserUpdate}
    (hset : upd.username = none) : newUsernameOf u upd = some u.username := by
  unfold newUsernameOf
  rw [hset]

theorem newActiveOf_not_null {u : User} {upd : UserUpdate}
    (hset : upd.is_active ≠ some none) : ∃ b, newActiveOf u upd = some b := by
  unfold newActiveOf
  cases ha : upd.is_active with
  | none => exact ⟨u.is_active, rfl⟩
  | some o =>
    cases o with
    | none => exact absurd ha hset
    | some b => exact ⟨b, rfl⟩

theorem update_user_commit {db : DB} {now : Nat} {user_id : Nat} {upd : UserUpdate}
    {u : User} {e un : String} {b : Bool}
    (hg : get_user db user_id = some u)
    (hE : newEmailOf u upd = some e) (hU : newUsernameOf u upd = some un)
    (hB : newActiveOf u upd = some b) :
    update_user db now user_id upd =
      if (db.users.any fun v =>
          v.id != u.id && (v.email == e || v.username == un)) = true then
        .error ()
      else
        .ok (some (⟨u.id, e, un, newFullNameOf u upd, b, u.created_at, some now⟩,
          ⟨db.users.map (fun v => if v.id == u.id
             then ⟨u.id, e, un, newFullNameOf u upd, b, u.created_at, some now⟩
             else v), db.nextId⟩)) := by
  rw [update_user_of_get hg, hE, hU, hB]

theorem update_user_notfound {db : DB} {now : Nat} {user_id : Nat} {upd : UserUpdate}
    (hg : get_user db user_id = none) :
    update_user db now user_id upd = .ok none := by
  unfold update_user
  rw [hg]

/-- Extracted form of `raceOpOk` for a create. -/
theorem raceOpOk_create {e : String} {db0 : DB} {p : UserCreate}
    (h : raceOpOk e db0 (.create p) = true) :
    p.email = e ∧ ∀ v ∈ db0.users, v.username ≠ p.username := by
  unfold raceOpOk at h
  simp only [Bool.and_eq_true, beq_iff_eq, List.all_eq_true, bne_iff_ne] at h
  exact ⟨h.1, h.2⟩

/-- Extracted form of `raceOpOk` for an update. -/
theorem raceOpOk_update {e : String} {db0 : DB} {uid : Nat} {upd : UserUpdate}
    (h : raceOpOk e db0 (.update uid upd) = true) :
    upd.email = some (some e) ∧ upd.username = none ∧
    upd.is_active ≠ some none ∧ ∃ v ∈ db0.users, v.id = uid := by
  unfold raceOpOk at h
  simp only [Bool.and_eq_true, beq_iff_eq, bne_iff_ne, List.any_eq_true] at h
  exact ⟨h.1.1.1, h.1.1.2, h.1.2, h.2⟩

theorem stepOp_s0_clean {now : Nat} {e : String} {db0 : DB} {op : RaceOp}
    (hfresh : ∀ u ∈ db0.users, u.email ≠ e)
    (hop : raceOpOk e db0 op = true) :
    stepOp now db0 op .s0 = (.s1, db0) := by
  cases op with
  | create p =>
    obtain ⟨hpe, _⟩ := raceOpOk_create hop
    show (match get_user_by_email db0 p.email with
          | some _ => (PSt.conflict, db0)
          | none => (PSt.s1, db0)) = (PSt.s1, db0)
    rw [get_user_by_email_eq_none.2 (by rw [hpe]; exact hfresh)]
  | update uid upd =>
    obtain ⟨hE, _, _, _⟩ := raceOpOk_update hop
    show (match emailPrecheck db0 (uid : Int) upd with
          | some _ => (PSt.conflict, db0)
          | none => (PSt.s1, db0)) = (PSt.s1, db0)
    rw [emailPrecheck_none_char hE (get_user_by_email_eq_none.2 hfresh)]

theorem stepOp_s1_clean {now : Nat} {e : String} {db0 : DB} {op : RaceOp}
    (hop : raceOpOk e db0 op = true) :
    stepOp now db0 op .s1 = (.s2, db0) := by
  cases op with
  | create p =>
    obtain ⟨_, hus⟩ := raceOpOk_create hop
    show (match get_user_by_username db0 p.username with
          | some _ => (PSt.conflict, db0)
          | none => (PSt.s2, db0)) = (PSt.s2, db0)
    rw [get_user_by_username_eq_none.2 hus]
  | update uid upd =>
    obtain ⟨_, hU, _, _⟩ := raceOpOk_update hop
    show (match usernamePrecheck db0 (uid : Int) upd with
          | some _ => (PSt.conflict, db0)
          | none => (PSt.s2, db0)) = (PSt.s2, db0)
    rw [usernamePrecheck_unset_char hU]

theorem stepOp_s2_clean {now : Nat} {e : String} {db0 : DB} {op : RaceOp}
    (hwf : DBWf db0) (hfresh : ∀ u ∈ db0.users, u.email ≠ e)
    (hop : raceOpOk e db0 op = true) :
    ∃ wdb, stepOp now db0 op .s2 = (.ok, wdb) := by
  cases op with
  | create p =>
    obtain ⟨hpe, hus⟩ := raceOpOk_create hop
    have hA : (db0.users.any fun v =>
        v.email == p.email || v.username == p.username) = false := by
      refine List.any_eq_false.2 (fun v hv => ?_)
      simp only [Bool.or_eq_true, beq_iff_eq, not_or]
      exact ⟨by rw [hpe]; exact hfresh v hv, hus v hv⟩
    refine ⟨⟨db0.users ++
      [⟨db0.nextId, p.email, p.username, p.full_name, p.is_active, now, none⟩],
      db0.nextId + 1⟩, ?_⟩
    show (match create_user db0 now p with
          | .ok (_, db') => (PSt.ok, db')
          | .error _ => (PSt.conflict, db0)) = _
    rw [show create_user db0 now p =
        .ok (⟨db0.nextId, p.email, p.username, p.full_name, p.is_active, now, none⟩,
          ⟨db0.users ++
            [⟨db0.nextId, p.email, p.username, p.full_name, p.is_active, now, none⟩],
           db0.nextId + 1⟩) from by
      unfold create_user
      rw [if_neg (by rw [hA]; exact Bool.false_ne_true)]]
  | update uid upd =>
    obtain ⟨hE, hU, hB, v0, hv0, hvid⟩ := raceOpOk_update hop
    have hs : (get_user db0 uid).isSome = true := by
      unfold get_user
      exact List.find?_isSome.2 ⟨v0, hv0, by simp [hvid]⟩
    obtain ⟨w, hw⟩ := Option.isSome_iff_exists.1 hs
    obtain ⟨hwmem, hwid⟩ := get_user_some hw
    obtain ⟨b, hb⟩ := newActiveOf_not_null (u := w) hB
    have hA : (db0.users.any fun v =>
        v.id != w.id && (v.email == e || v.username == w.username)) = false := by
      refine List.any_eq_false.2 (fun v hv => ?_)
      simp only [Bool.and_eq_true, bne_iff_ne, Bool.or_eq_true, beq_iff_eq,
        not_and, not_or]
      intro hne
      refine ⟨hfresh v hv, fun hh => hne ?_⟩
      exact congrArg User.id (List.inj_on_of_nodup_map hwf.2.2.1 hv hwmem hh)
    refine ⟨⟨db0.users.map (fun v => if v.id == w.id
        then ⟨w.id, e, w.username, newFullNameOf w upd, b, w.created_at, some now⟩
        else v), db0.nextId⟩, ?_⟩
    show (match update_user db0 now uid upd with
          | .ok (some (_, db')) => (PSt.ok, db')
          | .ok none => (PSt.notfound, db0)
          | .error _ => (PSt.conflict, db0)) = _
    rw [update_user_commit hw (newEmailOf_set hE) (newUsernameOf_unset hU) hb,
      if_neg (by rw [hA]; exact Bool.false_ne_true)]

theorem stepOp_precheck_any (now : Nat) (db : DB) (op : RaceOp) :
    ((stepOp now db op .s0).2 = db ∧
      ((stepOp now db op .s0).1 = .s1 ∨ (stepOp now db op .s0).1 = .conflict)) ∧
    ((stepOp now db op .s1).2 = db ∧
      ((stepOp now db op .s1).1 = .s2 ∨ (stepOp now db op .s1).1 = .conflict)) := by
  cases op with
  | create p =>
    refine ⟨?_, ?_⟩ <;> simp only [stepOp] <;> split <;> simp
  | update uid upd =>
    refine ⟨?_, ?_⟩ <;> simp only [stepOp] <;> split <;> simp

theorem stepOp_done (now : Nat) (db : DB) (op : RaceOp) :
    stepOp now db op .ok = (.ok, db) ∧
    stepOp now db op .conflict = (.conflict, db) ∧
    stepOp now db op .notfound = (.notfound, db) :=
  ⟨rfl, rfl, rfl⟩

theorem winner_facts {now : Nat} {e : String} {db0 : DB} {op : RaceOp} {wdb : DB}
    (hwf : DBWf db0) (hfresh : ∀ u ∈ db0.users, u.email ≠ e)
    (hop : raceOpOk e db0 op = true)
    (hw : stepOp now db0 op .s2 = (.ok, wdb)) :
    ∃ wid,
      (∃ w ∈ wdb.users, w.email = e ∧ w.id = wid) ∧
      (∀ v ∈ wdb.users, v.email = e → v.id = wid) ∧
      (∀ t, (∃ v ∈ db0.users, v.id = t) → ∃ v ∈ wdb.users, v.id = t) ∧
      (targetOf op = some wid ∨
        (targetOf op = none ∧ ∀ v ∈ db0.users, v.id ≠ wid)) := by
  cases op with
  | create p =>
    obtain ⟨hpe, hus⟩ := raceOpOk_create hop
    replace hw : (match create_user db0 now p with
        | .ok (_, db') => (PSt.ok, db')
        | .error _ => (PSt.conflict, db0)) = (PSt.ok, wdb) := hw
    unfold create_user at hw
    by_cases hA : (db0.users.any fun v =>
        v.email == p.email || v.username == p.username) = true
    · rw [if_pos hA] at hw
      exact PSt.noConfusion (Prod.mk.inj hw).1
    · rw [if_neg hA] at hw
      have hdbw := (Prod.mk.inj hw).2
      subst hdbw
      refine ⟨db0.nextId, ?_, ?_, ?_, ?_⟩
      · exact ⟨⟨db0.nextId, p.email, p.username, p.full_name, p.is_active, now, none⟩,
          List.mem_append_right _ (List.mem_singleton.2 rfl), hpe, rfl⟩
      · intro v hv hve
        rcases List.mem_append.1 hv with h | h
        · exact absurd hve (hfresh v h)
        · rw [List.mem_singleton.1 h]
      · intro t ht
        obtain ⟨v, hv, hvt⟩ := ht
        exact ⟨v, List.mem_append_left _ hv, hvt⟩
      · right
        refine ⟨rfl, fun v hv => ?_⟩
        have := (hwf.2.2.2.1 v hv).2
        omega
  | update uid upd =>
    obtain ⟨hE, hU, hB, v0, hv0, hvid⟩ := raceOpOk_update hop
    replace hw : (match update_user db0 now uid upd with
        | .ok (some (_, db')) => (PSt.ok, db')
        | .ok none => (PSt.notfound, db0)
        | .error _ => (PSt.conflict, db0)) = (PSt.ok, wdb) := hw
    cases hg : get_user db0 uid with
    | none =>
      rw [update_user_notfound hg] at hw
      exact PSt.noConfusion (Prod.mk.inj hw).1
    | some w =>
      obtain ⟨hwmem, hwid⟩ := get_user_some hg
      obtain ⟨b, hb⟩ := newActiveOf_not_null (u := w) hB
      rw [update_user_commit hg (newEmailOf_set hE) (newUsernameOf_unset hU) hb] at hw
      by_cases hA : (db0.users.any fun v =>
          v.id != w.id && (v.email == e || v.username == w.username)) = true
      · rw [if_pos hA] at hw
        exact PSt.noConfusion (Prod.mk.inj hw).1
      · rw [if_neg hA] at hw
        have hdbw := (Prod.mk.inj hw).2
        subst hdbw
        refine ⟨uid, ?_, ?_, ?_, Or.inl rfl⟩
        · refine ⟨⟨w.id, e, w.username, newFullNameOf w upd, b, w.created_at, some now⟩,
            ?_, rfl, hwid⟩
          refine List.mem_map.2 ⟨w, hwmem, ?_⟩
          show (if (w.id == w.id) = true then _ else _) = _
          rw [if_pos (by simp)]
        · intro v hv hve
          obtain ⟨orig, horig, hfo⟩ := List.mem_map.1 hv
          by_cases hoid : (orig.id == w.id) = true
          · rw [if_pos hoid] at hfo
            rw [← hfo]
            exact hwid
          · rw [if_neg hoid] at hfo
            rw [← hfo] at hve
            exact absurd hve (hfresh orig horig)
        · intro t ht
          obtain ⟨v, hv, hvt⟩ := ht
          refine ⟨if (v.id == w.id) = true
            then ⟨w.id, e, w.username, newFullNameOf w upd, b, w.created_at, some now⟩
            else v, List.mem_map_of_mem _ hv, ?_⟩
          by_cases h : (v.id == w.id) = true
          · rw [if_pos h]
            show w.id = t
            rw [← beq_iff_eq.1 h]
            exact hvt
          · rw [if_neg h]
            exact hvt

theorem stepOp_s2_loser {now : Nat} {e : String} {db0 wdb : DB} {op : RaceOp}
    {wid : Nat} (hop : raceOpOk e db0 op = true)
    (hwin : ∃ w ∈ wdb.users, w.email = e ∧ w.id = wid)
    (hids : ∀ t, (∃ v ∈ db0.users, v.id = t) → ∃ v ∈ wdb.users, v.id = t)
    (htarget : ∀ uid upd, op = .update uid upd → uid ≠ wid) :
    stepOp now wdb op .s2 = (.conflict, wdb) := by
  cases op with
  | create p =>
    obtain ⟨hpe, _⟩ := raceOpOk_create hop
    obtain ⟨w, hwm, hwe, hwi⟩ := hwin
    have hA : (wdb.users.any fun v =>
        v.email == p.email || v.username == p.username) = true :=
      List.any_eq_true.2 ⟨w, hwm, by simp [hwe, hpe]⟩
    show (match create_user wdb now p with
          | .ok (_, db') => (PSt.ok, db')
          | .error _ => (PSt.conflict, wdb)) = (PSt.conflict, wdb)
    rw [show create_user wdb now p = .error () from by
      unfold create_user
      rw [if_pos hA]]
  | update uid upd =>
    obtain ⟨hE, hU, hB, v0, hv0, hvid⟩ := raceOpOk_update hop
    obtain ⟨w, hwm, hwe, hwi⟩ := hwin
    have hneq : uid ≠ wid := htarget uid upd rfl
    obtain ⟨q0, hq0, hq0id⟩ := hids uid ⟨v0, hv0, hvid⟩
    have hs : (get_user wdb uid).isSome = true := by
      unfold get_user
      exact List.find?_isSome.2 ⟨q0, hq0, by simp [hq0id]⟩
    obtain ⟨q, hq⟩ := Option.isSome_iff_exists.1 hs
    obtain ⟨hqmem, hqid⟩ := get_user_some hq
    obtain ⟨b, hb⟩ := newActiveOf_not_null (u := q) hB
    have hA : (wdb.users.any fun v =>
        v.id != q.id && (v.email == e || v.username == q.username)) = true := by
      refine List.any_eq_true.2 ⟨w, hwm, ?_⟩
      simp only [Bool.and_eq_true, bne_iff_ne, Bool.or_eq_true, beq_iff_eq]
      refine ⟨?_, Or.inl hwe⟩
      rw [hwi, hqid]
      exact fun hh => hneq hh.symm
    show (match update_user wdb now uid upd with
          | .ok (some (_, db')) => (PSt.ok, db')
          | .ok none => (PSt.notfound, wdb)
          | .error _ => (PSt.conflict, wdb)) = (PSt.conflict, wdb)
    rw [update_user_commit hq (newEmailOf_set hE) (newUsernameOf_unset hU) hb,
      if_pos hA]

theorem loser_of_unfinished {st : PSt} (h : unfinishedSt st) : loserSt st := by
  rcases h with h | h | h
  · exact Or.inl h
  · exact Or.inr (Or.inl h)
  · exact Or.inr (Or.inr (Or.inl h))

theorem raceInv_step {now : Nat} {e : String} {db0 : DB} {ops : List RaceOp}
    (hwf : DBWf db0) (hfresh : ∀ u ∈ db0.users, u.email ≠ e)
    (hops : ∀ op ∈ ops, raceOpOk e db0 op = true)
    (hdist : ∀ i, i < ops.length → ∀ j, j < ops.length → i ≠ j →
      ((ops[i]?.bind targetOf) = none ∨
        (ops[i]?.bind targetOf) ≠ (ops[j]?.bind targetOf)))
    {c : Conf} (hc : RaceInv now db0 ops c) (k : Nat) :
    RaceInv now db0 ops (runStep now ops c k) := by
  unfold runStep
  cases hko : ops[k]? with
  | none => exact hc
  | some op =>
    cases hkp : c.ps[k]? with
    | none => exact hc
    | some st =>
      have hmem : op ∈ ops := List.getElem?_mem hko
      have hop := hops op hmem
      have hkl : k < c.ps.length := (List.getElem?_eq_some.1 hkp).1
      have hkops : k < ops.length := (List.getElem?_eq_some.1 hko).1
      obtain ⟨hlen, hphase⟩ := hc
      show RaceInv now db0 ops
        ⟨(stepOp now c.db op st).2, c.ps.set k (stepOp now c.db op st).1⟩
      rcases hphase with ⟨hdb, hall⟩ | ⟨j, opj, hopsj, hpsj, hstep, hothers⟩
      · have hstu := hall st (List.getElem?_mem hkp)
        rcases hstu with h0 | h1 | h2
        · subst h0
          rw [hdb, stepOp_s0_clean hfresh hop]
          refine ⟨by rw [List.length_set]; exact hlen, Or.inl ⟨rfl, ?_⟩⟩
          intro st' hst'
          rcases List.mem_or_eq_of_mem_set hst' with h | h
          · exact hall st' h
          · rw [h]
            exact Or.inr (Or.inl rfl)
        · subst h1
          rw [hdb, stepOp_s1_clean hop]
          refine ⟨by rw [List.length_set]; exact hlen, Or.inl ⟨rfl, ?_⟩⟩
          intro st' hst'
          rcases List.mem_or_eq_of_mem_set hst' with h | h
          · exact hall st' h
          · rw [h]
            exact Or.inr (Or.inr rfl)
        · subst h2
          obtain ⟨wdb, hwdb⟩ := stepOp_s2_clean hwf hfresh hop
          rw [hdb, hwdb]
          refine ⟨by rw [List.length_set]; exact hlen,
            Or.inr ⟨k, op, hko, ?_, ?_, ?_⟩⟩
          · exact List.getElem?_set_self hkl
          · exact hwdb
          · intro i hik st' hst'
            rw [List.getElem?_set_ne (Ne.symm hik)] at hst'
            exact loser_of_unfinished (hall st' (List.getElem?_mem hst'))
      · by_cases hkj : k = j
        · subst hkj
          have hst : st = PSt.ok := by
            rw [hkp] at hpsj
            exact Option.some.inj hpsj
          subst hst
          show RaceInv now db0 ops ⟨c.db, c.ps.set k PSt.ok⟩
          refine ⟨by rw [List.length_set]; exact hlen,
            Or.inr ⟨k, opj, hopsj, List.getElem?_set_self hkl, hstep, ?_⟩⟩
          intro i hik st' hst'
          rw [List.getElem?_set_ne (Ne.symm hik)] at hst'
          exact hothers i hik st' hst'
        · have hst : loserSt st := hothers k hkj st hkp
          have hopj := hops opj (List.getElem?_mem hopsj)
          obtain ⟨wid, hwin, huniq, hids, htg⟩ := winner_facts hwf hfresh hopj hstep
          rcases hst with h0 | h1 | h2 | hcf
          · subst h0
            obtain ⟨⟨hdb2, hst2⟩, _⟩ := stepOp_precheck_any now c.db op
            rw [hdb2]
            refine ⟨by rw [List.length_set]; exact hlen,
              Or.inr ⟨j, opj, hopsj, ?_, hstep, ?_⟩⟩
            · rw [List.getElem?_set_ne hkj]
              exact hpsj
            · intro i hij st' hst'
              by_cases hik : i = k
              · subst hik
                rw [List.getElem?_set_self hkl] at hst'
                rw [← Option.some.inj hst']
                rcases hst2 with h | h
                · rw [h]
                  exact Or.inr (Or.inl rfl)
                · rw [h]
                  exact Or.inr (Or.inr (Or.inr rfl))
              · rw [List.getElem?_set_ne (Ne.symm hik)] at hst'
                exact hothers i hij st' hst'
          · subst h1
            obtain ⟨_, hdb2, hst2⟩ := stepOp_precheck_any now c.db op
            rw [hdb2]
            refine ⟨by rw [List.length_set]; exact hlen,
              Or.inr ⟨j, opj, hopsj, ?_, hstep, ?_⟩⟩
            · rw [List.getElem?_set_ne hkj]
              exact hpsj
            · intro i hij st' hst'
              by_cases hik : i = k
              · subst hik
                rw [List.getElem?_set_self hkl] at hst'
                rw [← Option.some.inj hst']
                rcases hst2 with h | h
                · rw [h]
                  exact Or.inr (Or.inr (Or.inl rfl))
                · rw [h]
                  exact Or.inr (Or.inr (Or.inr rfl))
              · rw [List.getElem?_set_ne (Ne.symm hik)] at hst'
                exact hothers i hij st' hst'
          · subst h2
            have htarget : ∀ uid upd, op = .update uid upd → uid ≠ wid := by
              intro uid upd hop_eq hcontra
              subst hop_eq
              subst hcontra
              rcases htg with htg1 | ⟨htg2, htg3⟩
              · have hjops : j < ops.length := (List.getElem?_eq_some.1 hopsj).1
                rcases hdist k hkops j hjops hkj with hd | hd
                · rw [hko] at hd
                  exact Option.noConfusion hd
                · rw [hko, hopsj] at hd
                  refine hd ?_
                  show some uid = targetOf opj
                  rw [htg1]
              · obtain ⟨_, _, _, v1, hv1, hv1id⟩ :=
                  raceOpOk_update (hops _ (List.getElem?_mem hko))
                exact htg3 v1 hv1 hv1id
            rw [stepOp_s2_loser hop hwin hids htarget]
            refine ⟨by rw [List.length_set]; exact hlen,
              Or.inr ⟨j, opj, hopsj, ?_, hstep, ?_⟩⟩
            · rw [List.getElem?_set_ne hkj]
              exact hpsj
            · intro i hij st' hst'
              by_cases hik : i = k
              · subst hik
                rw [List.getElem?_set_self hkl] at hst'
                rw [← Option.some.inj hst']
                exact Or.inr (Or.inr (Or.inr rfl))
              · rw [List.getElem?_set_ne (Ne.symm hik)] at hst'
                exact hothers i hij st' hst'
          · subst hcf
            show RaceInv now db0 ops ⟨c.db, c.ps.set k PSt.conflict⟩
            refine ⟨by rw [List.length_set]; exact hlen,
              Or.inr ⟨j, opj, hopsj, ?_, hstep, ?_⟩⟩
            · rw [List.getElem?_set_ne hkj]
              exact hpsj
            · intro i hij st' hst'
              by_cases hik : i = k
              · subst hik
                rw [List.getElem?_set_self hkl] at hst'
                rw [← Option.some.inj hst']
                exact Or.inr (Or.inr (Or.inr rfl))
              · rw [List.getElem?_set_ne (Ne.symm hik)] at hst'
                exact hothers i hij st' hst'

theorem raceInv_run {now : Nat} {e : String} {db0 : DB} {ops : List RaceOp}
    (hwf : DBWf db0) (hfresh : ∀ u ∈ db0.users, u.email ≠ e)
    (hops : ∀ op ∈ ops, raceOpOk e db0 op = true)
    (hdist : ∀ i, i < ops.length → ∀ j, j < ops.length → i ≠ j →
      ((ops[i]?.bind targetOf) = none ∨
        (ops[i]?.bind targetOf) ≠ (ops[j]?.bind targetOf)))
    (sched : List Nat) {c : Conf} (hc : RaceInv now db0 ops c) :
    RaceInv now db0 ops (runRace now ops sched c) := by
  induction sched generalizing c with
  | nil => exact hc
  | cons i t ih => exact ih (raceInv_step hwf hfresh hops hdist hc i)

/-- Email half of the exactly-one-winner property: under any schedule
interleaving concurrent creates/updates that race for one email `e` over
a well-formed store not yet holding `e`, once every operation has
finished, exactly one has succeeded and every other one has observed a
conflict. -/
theorem race_exactly_one_winner_email (now : Nat) (e : String) (db0 : DB)
    (ops : List RaceOp) (sched : List Nat)
    (hwf : DBWf db0)
    (hfresh : ∀ u ∈ db0.users, u.email ≠ e)
    (hops : ∀ op ∈ ops, raceOpOk e db0 op = true)
    (hdist : ∀ i, i < ops.length → ∀ j, j < ops.length → i ≠ j →
      ((ops[i]?.bind targetOf) = none ∨
        (ops[i]?.bind targetOf) ≠ (ops[j]?.bind targetOf)))
    (hne : ops ≠ [])
    (hfin : ∀ st ∈ (runRace now ops sched (initConf db0 ops)).ps,
      finished st = true) :
    ∃ j : Nat,
      (runRace now ops sched (initConf db0 ops)).ps[j]? = some PSt.ok ∧
      ∀ (i : Nat) (st : PSt), i ≠ j →
        (runRace now ops sched (initConf db0 ops)).ps[i]? = some st →
        st = PSt.conflict := by
  have hinit : RaceInv now db0 ops (initConf db0 ops) := by
    refine ⟨by simp [initConf], Or.inl ⟨rfl, ?_⟩⟩
    intro st hst
    rw [List.eq_of_mem_replicate hst]
    exact Or.inl rfl
  have hinv := raceInv_run hwf hfresh hops hdist sched hinit
  obtain ⟨hlen, hphase⟩ := hinv
  rcases hphase with ⟨hdb, hall⟩ | ⟨j, opj, hopsj, hpsj, hstep, hothers⟩
  · exfalso
    have h0 : 0 < ops.length := List.length_pos.2 hne
    have h0' : 0 < (runRace now ops sched (initConf db0 ops)).ps.length := by
      rw [hlen]
      exact h0
    obtain ⟨st0, hst0⟩ :
        ∃ st0, (runRace now ops sched (initConf db0 ops)).ps[0]? = some st0 :=
      ⟨_, List.getElem?_eq_some.2 ⟨h0', rfl⟩⟩
    have hu := hall st0 (List.getElem?_mem hst0)
    have hf := hfin st0 (List.getElem?_mem hst0)
    rcases hu with h | h | h <;> rw [h] at hf <;> exact absurd hf (by decide)
  · refine ⟨j, hpsj, ?_⟩
    intro i st hij hpsi
    have hl := hothers i hij st hpsi
    have hf := hfin st (List.getElem?_mem hpsi)
    rcases hl with h | h | h | h
    · rw [h] at hf
      exact absurd hf (by decide)
    · rw [h] at hf
      exact absurd hf (by decide)
    · rw [h] at hf
      exact absurd hf (by decide)
    · exact h

/-- Counterexample to C9 as stated: two concurrent updates racing for the
same email `z@x.com` — both targeting the *same* existing record 1 of the
well-formed sample store, which does not yet hold that email — both
finish and both succeed (the pre-check and the store's unique index see
the email only on the record being updated itself), so it is false that
exactly one racing operation succeeds while every other observes a
conflict. -/
theorem race_same_target_counterexample :
    (∀ op ∈ cexOps, raceOpOk "z@x.com" sampleDB op = true) ∧
    DBWf sampleDB ∧
    (∀ u ∈ sampleDB.users, u.email ≠ "z@x.com") ∧
    (∀ st ∈ cexRun.ps, finished st = true) ∧
    cexRun.ps = [PSt.ok, PSt.ok] ∧
    ¬(∃ j : Nat, cexRun.ps[j]? = some PSt.ok ∧
        ∀ (i : Nat) (st : PSt), i ≠ j → cexRun.ps[i]? = some st →
          st = PSt.conflict) := by
  refine ⟨by decide, by decide, by decide, by decide, by decide, ?_⟩
  rintro ⟨j, hok, hall⟩
  by_cases h0 : j = 0
  · subst h0
    have h1 := hall 1 PSt.ok (by decide) (by decide)
    exact absurd h1 (by decide)
  · have h1 := hall 0 PSt.ok (fun hh => h0 hh.symm) (by decide)
    exact absurd h1 (by decide)

theorem emailPrecheck_unset_char {db : DB} {user_id : Int} {upd : UserUpdate}
    (hset : upd.email = none) :
    emailPrecheck db user_id upd = none := by
  obtain ⟨f1, f2, f3, f4⟩ := upd
  cases hset
  rfl

theorem usernamePrecheck_none_char {db : DB} {user_id : Int} {upd : UserUpdate}
    {x : String} (hset : upd.username = some (some x))
    (hnone : get_user_by_username db x = none) :
    usernamePrecheck db user_id upd = none := by
  obtain ⟨f1, f2, f3, f4⟩ := upd
  cases hset
  rw [usernamePrecheck_set]
  by_cases hs : (x != "") = true
  · rw [if_pos hs, hnone]
  · rw [if_neg hs]

theorem newUsernameOf_set {u : User} {upd : UserUpdate} {x : String}
    (hset : upd.username = some (some x)) : newUsernameOf u upd = some x := by
  unfold newUsernameOf
  rw [hset]

theorem newEmailOf_unset {u : User} {upd : UserUpdate}
    (hset : upd.email = none) : newEmailOf u upd = some u.email := by
  unfold newEmailOf
  rw [hset]

/-- Extracted form of `raceOpOkU` for a create. -/
theorem raceOpOkU_create {n : String} {db0 : DB} {p : UserCreate}
    (h : raceOpOkU n db0 (.create p) = true) :
    p.username = n ∧ ∀ v ∈ db0.users, v.email ≠ p.email := by
  unfold raceOpOkU at h
  simp only [Bool.and_eq_true, beq_iff_eq, List.all_eq_true, bne_iff_ne] at h
  exact ⟨h.1, h.2⟩

/-- Extracted form of `raceOpOkU` for an update. -/
theorem raceOpOkU_update {n : String} {db0 : DB} {uid : Nat} {upd : UserUpdate}
    (h : raceOpOkU n db0 (.update uid upd) = true) :
    upd.username = some (some n) ∧ upd.email = none ∧
    upd.is_active ≠ some none ∧ ∃ v ∈ db0.users, v.id = uid := by
  unfold raceOpOkU at h
  simp only [Bool.and_eq_true, beq_iff_eq, bne_iff_ne, List.any_eq_true] at h
  exact ⟨h.1.1.1, h.1.1.2, h.1.2, h.2⟩

theorem stepOpU_s0_clean {now : Nat} {n : String} {db0 : DB} {op : RaceOp}
    (hop : raceOpOkU n db0 op = true) :
    stepOp now db0 op .s0 = (.s1, db0) := by
  cases op with
  | create p =>
    obtain ⟨_, hem⟩ := raceOpOkU_create hop
    show (match get_user_by_email db0 p.email with
          | some _ => (PSt.conflict, db0)
          | none => (PSt.s1, db0)) = (PSt.s1, db0)
    rw [get_user_by_email_eq_none.2 hem]
  | update uid upd =>
    obtain ⟨_, hE, _, _⟩ := raceOpOkU_update hop
    show (match emailPrecheck db0 (uid : Int) upd with
          | some _ => (PSt.conflict, db0)
          | none => (PSt.s1, db0)) = (PSt.s1, db0)
    rw [emailPrecheck_unset_char hE]

theorem stepOpU_s1_clean {now : Nat} {n : String} {db0 : DB} {op : RaceOp}
    (hfreshU : ∀ u ∈ db0.users, u.username ≠ n)
    (hop : raceOpOkU n db0 op = true) :
    stepOp now db0 op .s1 = (.s2, db0) := by
  cases op with
  | create p =>
    obtain ⟨hpn, _⟩ := raceOpOkU_create hop
    show (match get_user_by_username db0 p.username with
          | some _ => (PSt.conflict, db0)
          | none => (PSt.s2, db0)) = (PSt.s2, db0)
    rw [get_user_by_username_eq_none.2 (by rw [hpn]; exact hfreshU)]
  | update uid upd =>
    obtain ⟨hU, _, _, _⟩ := raceOpOkU_update hop
    show (match usernamePrecheck db0 (uid : Int) upd with
          | some _ => (PSt.conflict, db0)
          | none => (PSt.s2, db0)) = (PSt.s2, db0)
    rw [usernamePrecheck_none_char hU (get_user_by_username_eq_none.2 hfreshU)]

theorem stepOpU_s2_clean {now : Nat} {n : String} {db0 : DB} {op : RaceOp}
    (hwf : DBWf db0) (hfreshU : ∀ u ∈ db0.users, u.username ≠ n)
    (hop : raceOpOkU n db0 op = true) :
    ∃ wdb, stepOp now db0 op .s2 = (.ok, wdb) := by
  cases op with
  | create p =>
    obtain ⟨hpn, hem⟩ := raceOpOkU_create hop
    have hA : (db0.users.any fun v =>
        v.email == p.email || v.username == p.username) = false := by
      refine List.any_eq_false.2 (fun v hv => ?_)
      simp only [Bool.or_eq_true, beq_iff_eq, not_or]
      exact ⟨hem v hv, by rw [hpn]; exact hfreshU v hv⟩
    refine ⟨⟨db0.users ++
      [⟨db0.nextId, p.email, p.username, p.full_name, p.is_active, now, none⟩],
      db0.nextId + 1⟩, ?_⟩
    show (match create_user db0 now p with
          | .ok (_, db') => (PSt.ok, db')
          | .error _ => (PSt.conflict, db0)) = _
    rw [show create_user db0 now p =
        .ok (⟨db0.nextId, p.email, p.username, p.full_name, p.is_active, now, none⟩,
          ⟨db0.users ++
            [⟨db0.nextId, p.email, p.username, p.full_name, p.is_active, now, none⟩],
           db0.nextId + 1⟩) from by
      unfold create_user
      rw [if_neg (by rw [hA]; exact Bool.false_ne_true)]]
  | update uid upd =>
    obtain ⟨hU, hE, hB, v0, hv0, hvid⟩ := raceOpOkU_update hop
    have hs : (get_user db0 uid).isSome = true := by
      unfold get_user
      exact List.find?_isSome.2 ⟨v0, hv0, by simp [hvid]⟩
    obtain ⟨w, hw⟩ := Option.isSome_iff_exists.1 hs
    obtain ⟨hwmem, hwid⟩ := get_user_some hw
    obtain ⟨b, hb⟩ := newActiveOf_not_null (u := w) hB
    have hA : (db0.users.any fun v =>
        v.id != w.id && (v.email == w.email || v.username == n)) = false := by
      refine List.any_eq_false.2 (fun v hv => ?_)
      simp only [Bool.and_eq_true, bne_iff_ne, Bool.or_eq_true, beq_iff_eq,
        not_and, not_or]
      intro hne
      refine ⟨fun hh => hne ?_, hfreshU v hv⟩
      exact congrArg User.id (List.inj_on_of_nodup_map hwf.2.1 hv hwmem hh)
    refine ⟨⟨db0.users.map (fun v => if v.id == w.id
        then ⟨w.id, w.email, n, newFullNameOf w upd, b, w.created_at, some now⟩
        else v), db0.nextId⟩, ?_⟩
    show (match update_user db0 now uid upd with
          | .ok (some (_, db')) => (PSt.ok, db')
          | .ok none => (PSt.notfound, db0)
          | .error _ => (PSt.conflict, db0)) = _
    rw [update_user_commit hw (newEmailOf_unset hE) (newUsernameOf_set hU) hb,
      if_neg (by rw [hA]; exact Bool.false_ne_true)]

theorem winner_factsU {now : Nat} {n : String} {db0 : DB} {op : RaceOp} {wdb : DB}
    (hwf : DBWf db0) (hfreshU : ∀ u ∈ db0.users, u.username ≠ n)
    (hop : raceOpOkU n db0 op = true)
    (hw : stepOp now db0 op .s2 = (.ok, wdb)) :
    ∃ wid,
      (∃ w ∈ wdb.users, w.username = n ∧ w.id = wid) ∧
      (∀ v ∈ wdb.users, v.username = n → v.id = wid) ∧
      (∀ t, (∃ v ∈ db0.users, v.id = t) → ∃ v ∈ wdb.users, v.id = t) ∧
      (targetOf op = some wid ∨
        (targetOf op = none ∧ ∀ v ∈ db0.users, v.id ≠ wid)) := by
  cases op with
  | create p =>
    obtain ⟨hpn, hem⟩ := raceOpOkU_create hop
    replace hw : (match create_user db0 now p with
        | .ok (_, db') => (PSt.ok, db')
        | .error _ => (PSt.conflict, db0)) = (PSt.ok, wdb) := hw
    unfold create_user at hw
    by_cases hA : (db0.users.any fun v =>
        v.email == p.email || v.username == p.username) = true
    · rw [if_pos hA] at hw
      exact PSt.noConfusion (Prod.mk.inj hw).1
    · rw [if_neg hA] at hw
      have hdbw := (Prod.mk.inj hw).2
      subst hdbw
      refine ⟨db0.nextId, ?_, ?_, ?_, ?_⟩
      · exact ⟨⟨db0.nextId, p.email, p.username, p.full_name, p.is_active, now, none⟩,
          List.mem_append_right _ (List.mem_singleton.2 rfl), hpn, rfl⟩
      · intro v hv hvn
        rcases List.mem_append.1 hv with h | h
        · exact absurd hvn (hfreshU v h)
        · rw [List.mem_singleton.1 h]
      · intro t ht
        obtain ⟨v, hv, hvt⟩ := ht
        exact ⟨v, List.mem_append_left _ hv, hvt⟩
      · right
        refine ⟨rfl, fun v hv => ?_⟩
        have := (hwf.2.2.2.1 v hv).2
        omega
  | update uid upd =>
    obtain ⟨hU, hE, hB, v0, hv0, hvid⟩ := raceOpOkU_update hop
    replace hw : (match update_user db0 now uid upd with
        | .ok (some (_, db')) => (PSt.ok, db')
        | .ok none => (PSt.notfound, db0)
        | .error _ => (PSt.conflict, db0)) = (PSt.ok, wdb) := hw
    cases hg : get_user db0 uid with
    | none =>
      rw [update_user_notfound hg] at hw
      exact PSt.noConfusion (Prod.mk.inj hw).1
    | some w =>
      obtain ⟨hwmem, hwid⟩ := get_user_some hg
      obtain ⟨b, hb⟩ := newActiveOf_not_null (u := w) hB
      rw [update_user_commit hg (newEmailOf_unset hE) (newUsernameOf_set hU) hb] at hw
      by_cases hA : (db0.users.any fun v =>
          v.id != w.id && (v.email == w.email || v.username == n)) = true
      · rw [if_pos hA] at hw
        exact PSt.noConfusion (Prod.mk.inj hw).1
      · rw [if_neg hA] at hw
        have hdbw := (Prod.mk.inj hw).2
        subst hdbw
        refine ⟨uid, ?_, ?_, ?_, Or.inl rfl⟩
        · refine ⟨⟨w.id, w.email, n, newFullNameOf w upd, b, w.created_at, some now⟩,
            ?_, rfl, hwid⟩
          refine List.mem_map.2 ⟨w, hwmem, ?_⟩
          show (if (w.id == w.id) = true then _ else _) = _
          rw [if_pos (by simp)]
        · intro v hv hvn
          obtain ⟨orig, horig, hfo⟩ := List.mem_map.1 hv
          by_cases hoid : (orig.id == w.id) = true
          · rw [if_pos hoid] at hfo
            rw [← hfo]
            exact hwid
          · rw [if_neg hoid] at hfo
            rw [← hfo] at hvn
            exact absurd hvn (hfreshU orig horig)
        · intro t ht
          obtain ⟨v, hv, hvt⟩ := ht
          refine ⟨if (v.id == w.id) = true
            then ⟨w.id, w.email, n, newFullNameOf w upd, b, w.created_at, some now⟩
            else v, List.mem_map_of_mem _ hv, ?_⟩
          by_cases h : (v.id == w.id) = true
          · rw [if_pos h]
            show w.id = t
            rw [← beq_iff_eq.1 h]
            exact hvt
          · rw [if_neg h]
            exact hvt

theorem stepOp_s2_loserU {now : Nat} {n : String} {db0 wdb : DB} {op : RaceOp}
    {wid : Nat} (hop : raceOpOkU n db0 op = true)
    (hwin : ∃ w ∈ wdb.users, w.username = n ∧ w.id = wid)
    (hids : ∀ t, (∃ v ∈ db0.users, v.id = t) → ∃ v ∈ wdb.users, v.id = t)
    (htarget : ∀ uid upd, op = .update uid upd → uid ≠ wid) :
    stepOp now wdb op .s2 = (.conflict, wdb) := by
  cases op with
  | create p =>
    obtain ⟨hpn, _⟩ := raceOpOkU_create hop
    obtain ⟨w, hwm, hwn, hwi⟩ := hwin
    have hA : (wdb.users.any fun v =>
        v.email == p.email || v.username == p.username) = true :=
      List.any_eq_true.2 ⟨w, hwm, by simp [hwn, hpn]⟩
    show (match create_user wdb now p with
          | .ok (_, db') => (PSt.ok, db')
          | .error _ => (PSt.conflict, wdb)) = (PSt.conflict, wdb)
    rw [show create_user wdb now p = .error () from by
      unfold create_user
      rw [if_pos hA]]
  | update uid upd =>
    obtain ⟨hU, hE, hB, v0, hv0, hvid⟩ := raceOpOkU_update hop
    obtain ⟨w, hwm, hwn, hwi⟩ := hwin
    have hneq : uid ≠ wid := htarget uid upd rfl
    obtain ⟨q0, hq0, hq0id⟩ := hids uid ⟨v0, hv0, hvid⟩
    have hs : (get_user wdb uid).isSome = true := by
      unfold get_user
      exact List.find?_isSome.2 ⟨q0, hq0, by simp [hq0id]⟩
    obtain ⟨q, hq⟩ := Option.isSome_iff_exists.1 hs
    obtain ⟨hqmem, hqid⟩ := get_user_some hq
    obtain ⟨b, hb⟩ := newActiveOf_not_null (u := q) hB
    have hA : (wdb.users.any fun v =>
        v.id != q.id && (v.email == q.email || v.username == n)) = true := by
      refine List.any_eq_true.2 ⟨w, hwm, ?_⟩
      simp only [Bool.and_eq_true, bne_iff_ne, Bool.or_eq_true, beq_iff_eq]
      refine ⟨?_, Or.inr hwn⟩
      rw [hwi, hqid]
      exact fun hh => hneq hh.symm
    show (match update_user wdb now uid upd with
          | .ok (some (_, db')) => (PSt.ok, db')
          | .ok none => (PSt.notfound, wdb)
          | .error _ => (PSt.conflict, wdb)) = (PSt.conflict, wdb)
    rw [update_user_commit hq (newEmailOf_unset hE) (newUsernameOf_set hU) hb,
      if_pos hA]

theorem raceInv_stepU {now : Nat} {n : String} {db0 : DB} {ops : List RaceOp}
    (hwf : DBWf db0) (hfreshU : ∀ u ∈ db0.users, u.username ≠ n)
    (hops : ∀ op ∈ ops, raceOpOkU n db0 op = true)
    (hdist : ∀ i, i < ops.length → ∀ j, j < ops.length → i ≠ j →
      ((ops[i]?.bind targetOf) = none ∨
        (ops[i]?.bind targetOf) ≠ (ops[j]?.bind targetOf)))
    {c : Conf} (hc : RaceInv now db0 ops c) (k : Nat) :
    RaceInv now db0 ops (runStep now ops c k) := by
  unfold runStep
  cases hko : ops[k]? with
  | none => exact hc
  | some op =>
    cases hkp : c.ps[k]? with
    | none => exact hc
    | some st =>
      have hmem : op ∈ ops := List.getElem?_mem hko
      have hop := hops op hmem
      have hkl : k < c.ps.length := (List.getElem?_eq_some.1 hkp).1
      have hkops : k < ops.length := (List.getElem?_eq_some.1 hko).1
      obtain ⟨hlen, hphase⟩ := hc
      show RaceInv now db0 ops
        ⟨(stepOp now c.db op st).2, c.ps.set k (stepOp now c.db op st).1⟩
      rcases hphase with ⟨hdb, hall⟩ | ⟨j, opj, hopsj, hpsj, hstep, hothers⟩
      · have hstu := hall st (List.getElem?_mem hkp)
        rcases hstu with h0 | h1 | h2
        · subst h0
          rw [hdb, stepOpU_s0_clean hop]
          refine ⟨by rw [List.length_set]; exact hlen, Or.inl ⟨rfl, ?_⟩⟩
          intro st' hst'
          rcases List.mem_or_eq_of_mem_set hst' with h | h
          · exact hall st' h
          · rw [h]
            exact Or.inr (Or.inl rfl)
        · subst h1
          rw [hdb, stepOpU_s1_clean hfreshU hop]
          refine ⟨by rw [List.length_set]; exact hlen, Or.inl ⟨rfl, ?_⟩⟩
          intro st' hst'
          rcases List.mem_or_eq_of_mem_set hst' with h | h
          · exact hall st' h
          · rw [h]
            exact Or.inr (Or.inr rfl)
        · subst h2
          obtain ⟨wdb, hwdb⟩ := stepOpU_s2_clean hwf hfreshU hop
          rw [hdb, hwdb]
          refine ⟨by rw [List.length_set]; exact hlen,
            Or.inr ⟨k, op, hko, ?_, ?_, ?_⟩⟩
          · exact List.getElem?_set_self hkl
          · exact hwdb
          · intro i hik st' hst'
            rw [List.getElem?_set_ne (Ne.symm hik)] at hst'
            exact loser_of_unfinished (hall st' (List.getElem?_mem hst'))
      · by_cases hkj : k = j
        · subst hkj
          have hst : st = PSt.ok := by
            rw [hkp] at hpsj
            exact Option.some.inj hpsj
          subst hst
          show RaceInv now db0 ops ⟨c.db, c.ps.set k PSt.ok⟩
          refine ⟨by rw [List.length_set]; exact hlen,
            Or.inr ⟨k, opj, hopsj, List.getElem?_set_self hkl, hstep, ?_⟩⟩
          intro i hik st' hst'
          rw [List.getElem?_set_ne (Ne.symm hik)] at hst'
          exact hothers i hik st' hst'
        · have hst : loserSt st := hothers k hkj st hkp
          have hopj := hops opj (List.getElem?_mem hopsj)
          obtain ⟨wid, hwin, huniq, hids, htg⟩ := winner_factsU hwf hfreshU hopj hstep
          rcases hst with h0 | h1 | h2 | hcf
          · subst h0
            obtain ⟨⟨hdb2, hst2⟩, _⟩ := stepOp_precheck_any now c.db op
            rw [hdb2]
            refine ⟨by rw [List.length_set]; exact hlen,
              Or.inr ⟨j, opj, hopsj, ?_, hstep, ?_⟩⟩
            · rw [List.getElem?_set_ne hkj]
              exact hpsj
            · intro i hij st' hst'
              by_cases hik : i = k
              · subst hik
                rw [List.getElem?_set_self hkl] at hst'
                rw [← Option.some.inj hst']
                rcases hst2 with h | h
                · rw [h]
                  exact Or.inr (Or.inl rfl)
                · rw [h]
                  exact Or.inr (Or.inr (Or.inr rfl))
              · rw [List.getElem?_set_ne (Ne.symm hik)] at hst'
                exact hothers i hij st' hst'
          · subst h1
            obtain ⟨_, hdb2, hst2⟩ := stepOp_precheck_any now c.db op
            rw [hdb2]
            refine ⟨by rw [List.length_set]; exact hlen,
              Or.inr ⟨j, opj, hopsj, ?_, hstep, ?_⟩⟩
            · rw [List.getElem?_set_ne hkj]
              exact hpsj
            · intro i hij st' hst'
              by_cases hik : i = k
              · subst hik
                rw [List.getElem?_set_self hkl] at hst'
                rw [← Option.some.inj hst']
                rcases hst2 with h | h
                · rw [h]
                  exact Or.inr (Or.inr (Or.inl rfl))
                · rw [h]
                  exact Or.inr (Or.inr (Or.inr rfl))
              · rw [List.getElem?_set_ne (Ne.symm hik)] at hst'
                exact hothers i hij st' hst'
          · subst h2
            have htarget : ∀ uid upd, op = .update uid upd → uid ≠ wid := by
              intro uid upd hop_eq hcontra
              subst hop_eq
              subst hcontra
              rcases htg with htg1 | ⟨htg2, htg3⟩
              · have hjops : j < ops.length := (List.getElem?_eq_some.1 hopsj).1
                rcases hdist k hkops j hjops hkj with hd | hd
                · rw [hko] at hd
                  exact Option.noConfusion hd
                · rw [hko, hopsj] at hd
                  refine hd ?_
                  show some uid = targetOf opj
                  rw [htg1]
              · obtain ⟨_, _, _, v1, hv1, hv1id⟩ :=
                  raceOpOkU_update (hops _ (List.getElem?_mem hko))
                exact htg3 v1 hv1 hv1id
            rw [stepOp_s2_loserU hop hwin hids htarget]
            refine ⟨by rw [List.length_set]; exact hlen,
              Or.inr ⟨j, opj, hopsj, ?_, hstep, ?_⟩⟩
            · rw [List.getElem?_set_ne hkj]
              exact hpsj
            · intro i hij st' hst'
              by_cases hik : i = k
              · subst hik
                rw [List.getElem?_set_self hkl] at hst'
                rw [← Option.some.inj hst']
                exact Or.inr (Or.inr (Or.inr rfl))
              · rw [List.getElem?_set_ne (Ne.symm hik)] at hst'
                exact hothers i hij st' hst'
          · subst hcf
            show RaceInv now db0 ops ⟨c.db, c.ps.set k PSt.conflict⟩
            refine ⟨by rw [List.length_set]; exact hlen,
              Or.inr ⟨j, opj, hopsj, ?_, hstep, ?_⟩⟩
            · rw [List.getElem?_set_ne hkj]
              exact hpsj
            · intro i hij st' hst'
              by_cases hik : i = k
              · subst hik
                rw [List.getElem?_set_self hkl] at hst'
                rw [← Option.some.inj hst']
                exact Or.inr (Or.inr (Or.inr rfl))
              · rw [List.getElem?_set_ne (Ne.symm hik)] at hst'
                exact hothers i hij st' hst'

theorem raceInv_runU {now : Nat} {n : String} {db0 : DB} {ops : List RaceOp}
    (hwf : DBWf db0) (hfreshU : ∀ u ∈ db0.users, u.username ≠ n)
    (hops : ∀ op ∈ ops, raceOpOkU n db0 op = true)
    (hdist : ∀ i, i < ops.length → ∀ j, j < ops.length → i ≠ j →
      ((ops[i]?.bind targetOf) = none ∨
        (ops[i]?.bind targetOf) ≠ (ops[j]?.bind targetOf)))
    (sched : List Nat) {c : Conf} (hc : RaceInv now db0 ops c) :
    RaceInv now db0 ops (runRace now ops sched c) := by
  induction sched generalizing c with
  | nil => exact hc
  | cons i t ih => exact ih (raceInv_stepU hwf hfreshU hops hdist hc i)

/-- Username half of the exactly-one-winner property: under any schedule
interleaving concurrent creates/updates that race for one username `n`
over a well-formed store not yet holding `n`, once every operation has
finished, exactly one has succeeded and every other one has observed a
conflict. -/
theorem race_exactly_one_winner_username (now : Nat) (n : String) (db0 : DB)
    (ops : List RaceOp) (sched : List Nat)
    (hwf : DBWf db0)
    (hfreshU : ∀ u ∈ db0.users, u.username ≠ n)
    (hops : ∀ op ∈ ops, raceOpOkU n db0 op = true)
    (hdist : ∀ i, i < ops.length → ∀ j, j < ops.length → i ≠ j →
      ((ops[i]?.bind targetOf) = none ∨
        (ops[i]?.bind targetOf) ≠ (ops[j]?.bind targetOf)))
    (hne : ops ≠ [])
    (hfin : ∀ st ∈ (runRace now ops sched (initConf db0 ops)).ps,
      finished st = true) :
    ∃ j : Nat,
      (runRace now ops sched (initConf db0 ops)).ps[j]? = some PSt.ok ∧
      ∀ (i : Nat) (st : PSt), i ≠ j →
        (runRace now ops sched (initConf db0 ops)).ps[i]? = some st →
        st = PSt.conflict := by
  have hinit : RaceInv now db0 ops (initConf db0 ops) := by
    refine ⟨by simp [initConf], Or.inl ⟨rfl, ?_⟩⟩
    intro st hst
    rw [List.eq_of_mem_replicate hst]
    exact Or.inl rfl
  have hinv := raceInv_runU hwf hfreshU hops hdist sched hinit
  obtain ⟨hlen, hphase⟩ := hinv
  rcases hphase with ⟨hdb, hall⟩ | ⟨j, opj, hopsj, hpsj, hstep, hothers⟩
  · exfalso
    have h0 : 0 < ops.length := List.length_pos.2 hne
    have h0' : 0 < (runRace now ops sched (initConf db0 ops)).ps.length := by
      rw [hlen]
      exact h0
    obtain ⟨st0, hst0⟩ :
        ∃ st0, (runRace now ops sched (initConf db0 ops)).ps[0]? = some st0 :=
      ⟨_, List.getElem?_eq_some.2 ⟨h0', rfl⟩⟩
    have hu := hall st0 (List.getElem?_mem hst0)
    have hf := hfin st0 (List.getElem?_mem hst0)
    rcases hu with h | h | h <;> rw [h] at hf <;> exact absurd hf (by decide)
  · refine ⟨j, hpsj, ?_⟩
    intro i st hij hpsi
    have hl := hothers i hij st hpsi
    have hf := hfin st (List.getElem?_mem hpsi)
    rcases hl with h | h | h | h
    · rw [h] at hf
      exact absurd hf (by decide)
    · rw [h] at hf
      exact absurd hf (by decide)
    · rw [h] at hf
      exact absurd hf (by decide)
    · exact h

/-- C9 (amended): under any number of concurrent create or update
operations racing for the same email — or, symmetrically, for the same
username — where creates carry the contested value alongside an
unclaimed value for the other unique field, updates set exactly the
contested field and target pairwise-distinct existing records, and the
well-formed store does not yet hold the contested value, once every
operation has finished exactly one has succeeded and every other racing
operation has observed a conflict; which one wins depends on the
schedule and is not specified.  (As stated the claim is false: see the
same-target counterexample.) -/
theorem race_exactly_one_winner_spec :
    (∀ (now : Nat) (e : String) (db0 : DB) (ops : List RaceOp) (sched : List Nat),
      DBWf db0 →
      (∀ u ∈ db0.users, u.email ≠ e) →
      (∀ op ∈ ops, raceOpOk e db0 op = true) →
      (∀ i, i < ops.length → ∀ j, j < ops.length → i ≠ j →
        ((ops[i]?.bind targetOf) = none ∨
          (ops[i]?.bind targetOf) ≠ (ops[j]?.bind targetOf))) →
      ops ≠ [] →
      (∀ st ∈ (runRace now ops sched (initConf db0 ops)).ps,
        finished st = true) →
      ∃ j : Nat,
        (runRace now ops sched (initConf db0 ops)).ps[j]? = some PSt.ok ∧
        ∀ (i : Nat) (st : PSt), i ≠ j →
          (runRace now ops sched (initConf db0 ops)).ps[i]? = some st →
          st = PSt.conflict) ∧
    (∀ (now : Nat) (n : String) (db0 : DB) (ops : List RaceOp) (sched : List Nat),
      DBWf db0 →
      (∀ u ∈ db0.users, u.username ≠ n) →
      (∀ op ∈ ops, raceOpOkU n db0 op = true) →
      (∀ i, i < ops.length → ∀ j, j < ops.length → i ≠ j →
        ((ops[i]?.bind targetOf) = none ∨
          (ops[i]?.bind targetOf) ≠ (ops[j]?.bind targetOf))) →
      ops ≠ [] →
      (∀ st ∈ (runRace now ops sched (initConf db0 ops)).ps,
        finished st = true) →
      ∃ j : Nat,
        (runRace now ops sched (initConf db0 ops)).ps[j]? = some PSt.ok ∧
        ∀ (i : Nat) (st : PSt), i ≠ j →
          (runRace now ops sched (initConf db0 ops)).ps[i]? = some st →
          st = PSt.conflict) :=
  ⟨fun now e db0 ops sched hwf hfresh hops hdist hne hfin =>
    race_exactly_one_winner_email now e db0 ops sched hwf hfresh hops hdist
      hne hfin,
   fun now n db0 ops sched hwf hfreshU hops hdist hne hfin =>
    race_exactly_one_winner_username now n db0 ops sched hwf hfreshU hops hdist
      hne hfin⟩

/-- Witness for the amended C9, one instance per half: a create and an
update of a distinct record race for the email `z@x.com` (resp. for the
username `shared`) under a concrete schedule; the theorem yields the
exactly-one-winner shape for both. -/
theorem race_exactly_one_winner_spec_witness :
    (∃ j : Nat,
      (runRace 5 wraceOps [0, 0, 0, 1, 1, 1]
        (initConf sampleDB wraceOps)).ps[j]? = some PSt.ok ∧
      ∀ (i : Nat) (st : PSt), i ≠ j →
        (runRace 5 wraceOps [0, 0, 0, 1, 1, 1]
          (initConf sampleDB wraceOps)).ps[i]? = some st →
        st = PSt.conflict) ∧
    (∃ j : Nat,
      (runRace 5 wraceOpsU [0, 0, 0, 1, 1, 1]
        (initConf sampleDB wraceOpsU)).ps[j]? = some PSt.ok ∧
      ∀ (i : Nat) (st : PSt), i ≠ j →
        (runRace 5 wraceOpsU [0, 0, 0, 1, 1, 1]
          (initConf sampleDB wraceOpsU)).ps[i]? = some st →
        st = PSt.conflict) :=
  ⟨race_exactly_one_winner_spec.1 5 "z@x.com" sampleDB wraceOps [0, 0, 0, 1, 1, 1]
    (by decide) (by decide) (by decide) (by decide) (by decide) (by decide),
   race_exactly_one_winner_spec.2 5 "shared" sampleDB wraceOpsU [0, 0, 0, 1, 1, 1]
    (by decide) (by decide) (by decide) (by decide) (by decide) (by decide)⟩
